import Mathlib

/-!
# logcollector: buffering and flushing of log records

A shallow embedding of `pkg/logcollector/logcollector.go`.

The collector is a record `LogCollector` holding the fields of the Go struct.
The parts of the process that the collector talks to are kept next to it in a
`World`: the runtime timers created by `time.AfterFunc` and the HTTP requests
handed to `client.Do`.  A method of the collector is a function from a world to
an `Outcome`: the call returned, the call is parked for ever in `mutex.Lock`, or
the runtime aborted the process.
-/

namespace Logcollector

/-! ## Data model -/

/-- A `time.Time` value: the calendar reading together with the zone offset. -/
structure Time where
  year : Int
  month : Nat
  day : Nat
  hour : Nat
  minute : Nat
  second : Nat
  nanosecond : Nat
  /-- seconds east of UTC -/
  offset : Int
deriving DecidableEq, Repr

/-- The zero value of `time.Time`: January 1, year 1, 00:00:00 UTC. -/
def Time.zero : Time :=
  { year := 1, month := 1, day := 1, hour := 0, minute := 0, second := 0,
    nanosecond := 0, offset := 0 }

/-- The struct `LogEntry` (lines 17-21). -/
structure LogEntry where
  Timestamp : Time
  Message : String
  File : String
deriving DecidableEq, Repr

/-- The zero value of `LogEntry`, what `var entry LogEntry` declares. -/
def LogEntry.zero : LogEntry :=
  { Timestamp := Time.zero, Message := "", File := "" }

/-- The struct `ZincPayload` (lines 23-26). -/
structure ZincPayload where
  Index : String
  Records : List LogEntry
deriving DecidableEq, Repr

/-- The struct `LogCollector` (lines 28-41).  `mutex` is `true` while the
`sync.Mutex` is locked, `timer` is the handle of a runtime timer, `cancelled`
stands for the state of `ctx` and `watcherClosed` for the state of `watcher`. -/
structure LogCollector where
  FilePath : String
  ZincURL : String
  ZincUser : String
  ZincPass : String
  ZincIndex : String
  BufferSize : Int
  buffer : List LogEntry
  mutex : Bool
  watcherClosed : Bool
  cancelled : Bool
  timer : Option Nat
deriving DecidableEq, Repr

/-- A runtime timer made by `time.AfterFunc`: the monotonic instant (in
nanoseconds) at which its callback is due, and whether `Stop` was called on it.
The callback of a timer that was not stopped runs once its deadline has come. -/
structure Timer where
  deadline : Nat
  stopped : Bool
deriving DecidableEq, Repr

/-- One HTTP POST handed to `client.Do` (lines 163-171): the target URL, the
basic-auth credentials and the payload that was marshalled into the body. -/
structure Request where
  url : String
  user : String
  pass : String
  payload : ZincPayload
deriving DecidableEq, Repr

/-- The collector together with the runtime timers (a handle is an index into
`timers`) and the requests submitted so far, oldest first. -/
structure World where
  lc : LogCollector
  timers : List Timer
  posted : List Request
deriving DecidableEq, Repr

/-- What the environment answers to one run of the body of `flushBuffer`:
`json.Marshal` fails (line 157), `http.NewRequest` fails (line 164),
`client.Do` fails (line 172), or a response with a status code arrives. -/
inductive Attempt where
  | marshalError
  | requestError
  | transportError
  | response (status : Nat)
deriving DecidableEq, Repr

/-- How a call ends: it returns, it is parked for ever inside `mutex.Lock`
(the mutex is held and its holder never releases it), or the runtime aborts the
process (`sync: unlock of unlocked mutex`). In each case the world reached. -/
inductive Outcome where
  | returned (w : World)
  | blocked (w : World)
  | crashed (w : World)
deriving DecidableEq, Repr

/-- The world in which a call ended. -/
def Outcome.world : Outcome → World
  | .returned w => w
  | .blocked w => w
  | .crashed w => w

/-- Whether the call ended in a runtime abort. -/
def Outcome.isCrashed : Outcome → Bool
  | .crashed _ => true
  | _ => false

/-- Whether the call returned to its caller. -/
def Outcome.isReturned : Outcome → Bool
  | .returned _ => true
  | _ => false

/-! ## The mutex

`sync.Mutex` is not reentrant: `Lock` on a locked mutex waits until somebody
unlocks it, also when the caller is the holder.  In the sequential model below
a call starts with the mutex held only when an earlier call is parked while
holding it, so the wait never ends. -/

/-- The state change of a successful `lc.mutex.Lock()`. -/
def lockMutex (w : World) : World :=
  { w with lc := { w.lc with mutex := true } }

/-- The call `lc.mutex.Unlock()`: releases a locked mutex, a fatal runtime error
on an unlocked one. -/
def Unlock (w : World) : Outcome :=
  if w.lc.mutex then .returned { w with lc := { w.lc with mutex := false } }
  else .crashed w

/-! ## Timers -/

/-- The constant `http.StatusOK`. -/
def StatusOK : Nat := 200

/-- The constant `time.Second`, in nanoseconds. -/
def Second : Nat := 1000000000

/-- The call `t.Stop()` on the timer with handle `h`. -/
def stopTimer (h : Nat) (timers : List Timer) : List Timer :=
  match timers[h]? with
  | some t => timers.set h { t with stopped := true }
  | none => timers

/-- The call `time.AfterFunc(d, f)` at monotonic instant `now`: a new timer
due at `now + d`; its handle is the index at which it is stored. -/
def AfterFunc (now d : Nat) (timers : List Timer) : List Timer × Nat :=
  (timers ++ [{ deadline := now + d, stopped := false }], timers.length)

/-- The method `resetFlushTimer` (lines 138-143), called at instant `now`. -/
def resetFlushTimer (now : Nat) (w : World) : World :=
  let timers1 := match w.lc.timer with
    | some h => stopTimer h w.timers
    | none => w.timers
  let r := AfterFunc now (10 * Second) timers1
  { w with lc := { w.lc with timer := some r.2 }, timers := r.1 }

/-! ## Flushing and appending -/

/-- The request built on lines 153-169 from the current buffer. -/
def buildRequest (lc : LogCollector) : Request :=
  { url := lc.ZincURL, user := lc.ZincUser, pass := lc.ZincPass,
    payload := { Index := lc.ZincIndex, Records := lc.buffer } }

/-- The call `client.Do(req)` (line 171): the request leaves the process. -/
def post (w : World) : World :=
  { w with posted := w.posted ++ [buildRequest w.lc] }

/-- The method `flushBuffer` (lines 145-185).  `a` is what the environment
answers if the body gets as far as asking. -/
def flushBuffer (a : Attempt) (w : World) : Outcome :=
  if w.lc.mutex then .blocked w
  else
    let w1 := lockMutex w
    if w1.lc.buffer.length = 0 then Unlock w1
    else
      match a with
      | .marshalError => Unlock w1
      | .requestError => Unlock w1
      | .transportError => Unlock (post w1)
      | .response status =>
        let w2 := post w1
        if status ≠ StatusOK then Unlock w2
        else Unlock { w2 with lc := { w2.lc with buffer := [] } }

/-- The method `addToBuffer` (lines 126-136), called at instant `now`. -/
def addToBuffer (a : Attempt) (now : Nat) (entry : LogEntry) (w : World) : Outcome :=
  if w.lc.mutex then .blocked w
  else
    let w0 := lockMutex w
    let w1 := { w0 with lc := { w0.lc with buffer := w0.lc.buffer ++ [entry] } }
    if w1.lc.BufferSize ≤ (w1.lc.buffer.length : Int) then
      match flushBuffer a w1 with
      | .returned w2 => Unlock w2
      | o => o
    else Unlock (resetFlushTimer now w1)

/-- The method `Stop` (lines 187-191). -/
def Stop (a : Attempt) (w : World) : Outcome :=
  let w1 := { w with lc := { w.lc with cancelled := true } }
  match flushBuffer a w1 with
  | .returned w2 => .returned { w2 with lc := { w2.lc with watcherClosed := true } }
  | o => o

/-! ## The JSON reader

`processLog` calls `json.Valid` and `json.Unmarshal` of the Go standard library.
They are modelled by a reader for the JSON grammar (RFC 8259, as the scanner of
`encoding/json` accepts it, nesting limit included) that builds a value tree,
and by a decoder of that tree into a `LogEntry` which follows the struct tags
of lines 18-20.  A line is a `String`, so lines that are not valid UTF-8 are
outside the model. -/

/-- A JSON value.  A string keeps its text as written between the quotes (`raw`,
what `Time.UnmarshalJSON` reads) and its unescaped value. -/
inductive JValue where
  | null
  | bool (b : Bool)
  | num (text : String)
  | str (raw : String) (val : String)
  | arr (items : List JValue)
  | obj (members : List (String × JValue))

/-- The double quote character. -/
def cQuote : Char := Char.ofNat 34

/-- The backslash character. -/
def cBackslash : Char := Char.ofNat 92

/-- JSON white space: space, tab, carriage return, line feed. -/
def isSpace (c : Char) : Bool :=
  c = ' ' || c = Char.ofNat 9 || c = Char.ofNat 13 || c = Char.ofNat 10

/-- Drop the white space at the front. -/
def skipSpace : List Char → List Char
  | [] => []
  | c :: cs => if isSpace c then skipSpace cs else c :: cs

/-- Split off the decimal digits at the front. -/
def takeDigits : List Char → List Char × List Char
  | [] => ([], [])
  | c :: cs =>
    if c.isDigit then
      let r := takeDigits cs
      (c :: r.1, r.2)
    else ([], c :: cs)

/-- The value of a hexadecimal digit. -/
def hexVal (c : Char) : Option Nat :=
  if '0' ≤ c ∧ c ≤ '9' then some (c.toNat - '0'.toNat)
  else if 'a' ≤ c ∧ c ≤ 'f' then some (c.toNat - 'a'.toNat + 10)
  else if 'A' ≤ c ∧ c ≤ 'F' then some (c.toNat - 'A'.toNat + 10)
  else none

/-- The function `getu4`: the number written by an escape `\uXXXX` at the front,
and the text after it. -/
def getu4 : List Char → Option (Nat × List Char)
  | b :: u :: h1 :: h2 :: h3 :: h4 :: rest =>
    if b = cBackslash ∧ u = 'u' then
      match hexVal h1, hexVal h2, hexVal h3, hexVal h4 with
      | some a, some b, some c, some d => some (((a * 16 + b) * 16 + c) * 16 + d, rest)
      | _, _, _, _ => none
    else none
  | _ => none

/-- Read a string after its opening quote: the text as written, the unescaped
value (as `unquote` computes it: a surrogate pair gives one character, a lone
surrogate gives U+FFFD), and the text after the closing quote.  Control
characters and unknown escapes are rejected. -/
def parseString : Nat → List Char → List Char → List Char →
    Option (String × String × List Char)
  | 0, _, _, _ => none
  | _ + 1, [], _, _ => none
  | fuel + 1, c :: cs, raw, val =>
    if c = cQuote then some (String.mk raw, String.mk val, cs)
    else if c = cBackslash then
      match cs with
      | [] => none
      | e :: cs1 =>
        if e = 'u' then
          match getu4 (c :: cs) with
          | none => none
          | some (rr, rest) =>
            if 0xD800 ≤ rr ∧ rr < 0xE000 then
              match getu4 rest with
              | some (rr1, rest1) =>
                if rr < 0xDC00 ∧ 0xDC00 ≤ rr1 ∧ rr1 < 0xE000 then
                  parseString fuel rest1 (raw ++ (c :: cs).take 12)
                    (val ++ [Char.ofNat ((rr - 0xD800) * 1024 + (rr1 - 0xDC00) + 0x10000)])
                else
                  parseString fuel rest (raw ++ (c :: cs).take 6) (val ++ [Char.ofNat 0xFFFD])
              | none =>
                parseString fuel rest (raw ++ (c :: cs).take 6) (val ++ [Char.ofNat 0xFFFD])
            else parseString fuel rest (raw ++ (c :: cs).take 6) (val ++ [Char.ofNat rr])
        else
          let out : Option Char :=
            if e = cQuote then some cQuote
            else if e = cBackslash then some cBackslash
            else if e = '/' then some '/'
            else if e = 'b' then some (Char.ofNat 8)
            else if e = 'f' then some (Char.ofNat 12)
            else if e = 'n' then some (Char.ofNat 10)
            else if e = 'r' then some (Char.ofNat 13)
            else if e = 't' then some (Char.ofNat 9)
            else none
          match out with
          | some d => parseString fuel cs1 (raw ++ [c, e]) (val ++ [d])
          | none => none
    else if c.toNat < 0x20 then none
    else parseString fuel cs (raw ++ [c]) (val ++ [c])

/-- The optional exponent of a number. -/
def parseExponent (cs : List Char) : Option (List Char × List Char) :=
  match cs with
  | e :: cs1 =>
    if e = 'e' ∨ e = 'E' then
      let (sign, cs2) :=
        match cs1 with
        | s :: r => if s = '+' ∨ s = '-' then ([s], r) else ([], cs1)
        | [] => ([], cs1)
      match takeDigits cs2 with
      | ([], _) => none
      | (ds, rest) => some (e :: sign ++ ds, rest)
    else some ([], cs)
  | [] => some ([], cs)

/-- The optional fraction of a number. -/
def parseFraction (cs : List Char) : Option (List Char × List Char) :=
  match cs with
  | p :: cs1 =>
    if p = '.' then
      match takeDigits cs1 with
      | ([], _) => none
      | (ds, rest) => some (p :: ds, rest)
    else some ([], cs)
  | [] => some ([], cs)

/-- The integer part of a number: `0`, or a digit from 1 to 9 and more digits. -/
def parseInteger (cs : List Char) : Option (List Char × List Char) :=
  match cs with
  | c :: cs1 =>
    if c = '0' then some ([c], cs1)
    else if '1' ≤ c ∧ c ≤ '9' then
      let r := takeDigits cs1
      some (c :: r.1, r.2)
    else none
  | [] => none

/-- Read a number; the result keeps its text. -/
def parseNumber (cs : List Char) : Option (String × List Char) :=
  let (sign, cs1) :=
    match cs with
    | s :: r => if s = '-' then ([s], r) else ([], cs)
    | [] => ([], cs)
  match parseInteger cs1 with
  | none => none
  | some (i, cs2) =>
    match parseFraction cs2 with
    | none => none
    | some (f, cs3) =>
      match parseExponent cs3 with
      | none => none
      | some (e, cs4) => some (String.mk (sign ++ i ++ f ++ e), cs4)

/-- The constant `maxNestingDepth` of the scanner. -/
def maxNestingDepth : Nat := 10000

mutual
/-- Read one value, inside `depth` enclosing arrays and objects.  `fuel` bounds
the recursion: every call uses one unit, and of two nested calls at least one
reads a character first, so twice the length of the text plus two suffices. -/
def parseValue : Nat → Nat → List Char → Option (JValue × List Char)
  | 0, _, _ => none
  | fuel + 1, depth, cs =>
    match skipSpace cs with
    | [] => none
    | c :: rest =>
      if c = Char.ofNat 123 then
        if depth + 1 > maxNestingDepth then none
        else
          match skipSpace rest with
          | d :: rest1 =>
            if d = Char.ofNat 125 then some (.obj [], rest1)
            else
              match parseMembers fuel (depth + 1) (d :: rest1) [] with
              | some (ms, rest2) => some (.obj ms, rest2)
              | none => none
          | [] => none
      else if c = '[' then
        if depth + 1 > maxNestingDepth then none
        else
          match skipSpace rest with
          | d :: rest1 =>
            if d = ']' then some (.arr [], rest1)
            else
              match parseElements fuel (depth + 1) (d :: rest1) [] with
              | some (vs, rest2) => some (.arr vs, rest2)
              | none => none
          | [] => none
      else if c = cQuote then
        match parseString (fuel + 1) rest [] [] with
        | some (raw, val, rest1) => some (.str raw val, rest1)
        | none => none
      else if c = 't' then
        if rest.take 3 = ['r', 'u', 'e'] then some (.bool true, rest.drop 3) else none
      else if c = 'f' then
        if rest.take 4 = ['a', 'l', 's', 'e'] then some (.bool false, rest.drop 4) else none
      else if c = 'n' then
        if rest.take 3 = ['u', 'l', 'l'] then some (.null, rest.drop 3) else none
      else
        match parseNumber (c :: rest) with
        | some (text, rest1) => some (.num text, rest1)
        | none => none
/-- Read the elements of an array that is not empty, up to its closing bracket. -/
def parseElements : Nat → Nat → List Char → List JValue → Option (List JValue × List Char)
  | 0, _, _, _ => none
  | fuel + 1, depth, cs, acc =>
    match parseValue fuel depth cs with
    | none => none
    | some (v, rest) =>
      match skipSpace rest with
      | d :: rest1 =>
        if d = ',' then parseElements fuel depth rest1 (acc ++ [v])
        else if d = ']' then some (acc ++ [v], rest1)
        else none
      | [] => none
/-- Read the members of an object that is not empty, up to its closing brace. -/
def parseMembers : Nat → Nat → List Char → List (String × JValue) →
    Option (List (String × JValue) × List Char)
  | 0, _, _, _ => none
  | fuel + 1, depth, cs, acc =>
    match skipSpace cs with
    | q :: rest =>
      if q = cQuote then
        match parseString (fuel + 1) rest [] [] with
        | none => none
        | some (_, key, rest1) =>
          match skipSpace rest1 with
          | colon :: rest2 =>
            if colon = ':' then
              match parseValue fuel depth rest2 with
              | none => none
              | some (v, rest3) =>
                match skipSpace rest3 with
                | d :: rest4 =>
                  if d = ',' then parseMembers fuel depth rest4 (acc ++ [(key, v)])
                  else if d = Char.ofNat 125 then some (acc ++ [(key, v)], rest4)
                  else none
                | [] => none
            else none
          | [] => none
      else none
    | [] => none
end

/-- Read a whole line as one JSON value, with white space allowed around it. -/
def jsonParse (s : String) : Option JValue :=
  match parseValue (2 * s.length + 2) 0 s.data with
  | some (v, rest) => if skipSpace rest = [] then some v else none
  | none => none

/-- The function `json.Valid`. -/
def Valid (s : String) : Bool := (jsonParse s).isSome

/-! ## Decoding a JSON value into a `LogEntry` -/

/-- The function `parseUint` inside `parseRFC3339`: a run of decimal digits
read as a number that must lie in `[min, max]`. -/
def parseUint (cs : List Char) (min max : Nat) : Option Nat :=
  if cs.all Char.isDigit then
    let x := cs.foldl (fun x c => x * 10 + (c.toNat - 48)) 0
    if x < min ∨ max < x then none else some x
  else none

/-- Whether `year` is a leap year. -/
def isLeap (year : Nat) : Bool :=
  year % 4 = 0 ∧ (year % 100 ≠ 0 ∨ year % 400 = 0)

/-- The number of days of a month. -/
def daysIn (month year : Nat) : Nat :=
  if month = 2 then (if isLeap year then 29 else 28)
  else if month = 4 ∨ month = 6 ∨ month = 9 ∨ month = 11 then 30
  else 31

/-- The fraction of a second written as `.ddd`: the first nine digits, scaled to
nanoseconds; the rest of the text follows the digits. -/
def parseFractionalSecond (cs : List Char) : Nat × List Char :=
  match cs with
  | p :: d :: rest =>
    if p = '.' ∧ d.isDigit then
      let r := takeDigits (d :: rest)
      let ds := r.1.take 9
      (ds.foldl (fun x c => x * 10 + (c.toNat - 48)) 0 * 10 ^ (9 - ds.length), r.2)
    else (0, cs)
  | _ => (0, cs)

/-- The zone at the end of an RFC 3339 time: `Z`, or a sign and `hh:mm`. -/
def parseZone (cs : List Char) : Option Int :=
  if cs = ['Z'] then some 0
  else
    match cs with
    | [sg, h1, h2, colon, m1, m2] =>
      match parseUint [h1, h2] 0 23, parseUint [m1, m2] 0 59 with
      | some hr, some mm =>
        if colon = ':' then
          if sg = '+' then some (((hr * 60 + mm) * 60 : Nat) : Int)
          else if sg = '-' then some (-(((hr * 60 + mm) * 60 : Nat) : Int))
          else none
        else none
      | _, _ => none
    | _ => none

/-- The function `parseRFC3339` of package `time`, the fast path of
`Time.UnmarshalJSON`: the strict form `2006-01-02T15:04:05[.frac](Z|±hh:mm)`. -/
def parseRFC3339 (s : String) : Option Time :=
  match s.data with
  | y1 :: y2 :: y3 :: y4 :: d1 :: mo1 :: mo2 :: d2 :: dd1 :: dd2 :: t :: h1 :: h2 :: c1 ::
      mi1 :: mi2 :: c2 :: s1 :: s2 :: rest =>
    match parseUint [y1, y2, y3, y4] 0 9999, parseUint [mo1, mo2] 1 12 with
    | some year, some month =>
      match parseUint [dd1, dd2] 1 (daysIn month year), parseUint [h1, h2] 0 23,
        parseUint [mi1, mi2] 0 59, parseUint [s1, s2] 0 59 with
      | some day, some hour, some minute, some sec =>
        if d1 = '-' ∧ d2 = '-' ∧ t = 'T' ∧ c1 = ':' ∧ c2 = ':' then
          let f := parseFractionalSecond rest
          match parseZone f.2 with
          | some off =>
            some { year := (year : Int), month := month, day := day, hour := hour,
                   minute := minute, second := sec, nanosecond := f.1, offset := off }
          | none => none
        else none
      | _, _, _, _ => none
    | _, _ => none
  | _ => none

/-- The function `getnum` of package `time`: a number of two digits, or of one
digit when only one is there and `fixed` is off. -/
def getnum (cs : List Char) (fixed : Bool) : Option (Nat × List Char) :=
  match cs with
  | c1 :: rest =>
    if c1.isDigit then
      match rest with
      | c2 :: rest2 =>
        if c2.isDigit then some ((c1.toNat - 48) * 10 + (c2.toNat - 48), rest2)
        else if fixed then none
        else some (c1.toNat - 48, rest)
      | [] => if fixed then none else some (c1.toNat - 48, rest)
    else none
  | [] => none

/-- The fraction of a second as `time.Parse` reads it after the seconds: a
period or a comma and digits. -/
def parseFractionLenient (cs : List Char) : Nat × List Char :=
  match cs with
  | p :: d :: rest =>
    if (p = '.' ∨ p = ',') ∧ d.isDigit then
      let r := takeDigits (d :: rest)
      let ds := r.1.take 9
      (ds.foldl (fun x c => x * 10 + (c.toNat - 48)) 0 * 10 ^ (9 - ds.length), r.2)
    else (0, cs)
  | _ => (0, cs)

/-- The zone as `time.Parse` reads it for the layout element `Z07:00`: `Z`, or
a sign and `hh:mm` with `hh` up to 24 and `mm` up to 60; the text after it. -/
def parseZoneLenient (cs : List Char) : Option (Int × List Char) :=
  match cs with
  | [] => none
  | z :: rest =>
    if z = 'Z' then some (0, rest)
    else
      match rest with
      | h1 :: h2 :: colon :: m1 :: m2 :: rest2 =>
        if colon = ':' then
          match getnum [h1, h2] true, getnum [m1, m2] true with
          | some (hr, _), some (mm, _) =>
            if hr > 24 ∨ mm > 60 then none
            else if z = '+' then some ((((hr * 60 + mm) * 60 : Nat) : Int), rest2)
            else if z = '-' then some (-(((hr * 60 + mm) * 60 : Nat) : Int), rest2)
            else none
          | _, _ => none
        else none
      | _ => none

/-- The function `time.Parse` with the layout `time.RFC3339`, as in Go 1.20 and
later: like `parseRFC3339`, but the hour may have one digit, the fraction may
start with a comma, and the zone may be up to `24:60`. -/
def timeParse (s : String) : Option Time :=
  match s.data with
  | y1 :: y2 :: y3 :: y4 :: d1 :: rest1 =>
    match parseUint [y1, y2, y3, y4] 0 9999, getnum rest1 true with
    | some year, some (month, d2 :: rest2) =>
      match getnum rest2 true with
      | some (day, t :: rest3) =>
        match getnum rest3 false with
        | some (hour, c1 :: rest4) =>
          match getnum rest4 true with
          | some (minute, c2 :: rest5) =>
            match getnum rest5 true with
            | some (sec, rest6) =>
              let f := parseFractionLenient rest6
              match parseZoneLenient f.2 with
              | some (off, []) =>
                if d1 = '-' ∧ d2 = '-' ∧ t = 'T' ∧ c1 = ':' ∧ c2 = ':' ∧
                    1 ≤ month ∧ month ≤ 12 ∧ 1 ≤ day ∧ day ≤ daysIn month year ∧
                    hour < 24 ∧ minute < 60 ∧ sec < 60 then
                  some { year := (year : Int), month := month, day := day, hour := hour,
                         minute := minute, second := sec, nanosecond := f.1, offset := off }
                else none
              | _ => none
            | none => none
          | _ => none
        | _ => none
      | _ => none
    | _, _ => none
  | _ => none

/-- The method `Time.UnmarshalJSON` on the text between the quotes of a JSON
string: `parseRFC3339` and, when that fails, `time.Parse`. -/
def timeUnmarshalJSON (raw : String) : Option Time :=
  match parseRFC3339 raw with
  | some t => some t
  | none => timeParse raw

/-- The fields of `LogEntry`. -/
inductive Field where
  | Timestamp
  | Message
  | File
deriving DecidableEq, Repr

/-- The JSON name of a field, from its struct tag (lines 18-20). -/
def Field.tag : Field → String
  | .Timestamp => "@timestamp"
  | .Message => "message"
  | .File => "file"

/-- Case folding of one character as `encoding/json` does it for field names:
ASCII letters to upper case, and the two characters outside ASCII that fold to
an ASCII letter (the long s and the Kelvin sign). -/
def foldRune (c : Char) : Char :=
  if 'a' ≤ c ∧ c ≤ 'z' then Char.ofNat (c.toNat - 32)
  else if c = Char.ofNat 0x17F then 'S'
  else if c = Char.ofNat 0x212A then 'K'
  else c

/-- Case folding of a name. -/
def foldName (s : String) : List Char := s.data.map foldRune

/-- The field an object key is stored into: the field whose tag equals the key,
else the field whose tag equals it up to case folding, else none. -/
def findField (key : String) : Option Field :=
  if key = Field.Timestamp.tag then some .Timestamp
  else if key = Field.Message.tag then some .Message
  else if key = Field.File.tag then some .File
  else if foldName key = foldName Field.Timestamp.tag then some .Timestamp
  else if foldName key = foldName Field.Message.tag then some .Message
  else if foldName key = foldName Field.File.tag then some .File
  else none

/-- Decode the members of a JSON object into `e`, in the order written.
The result is the entry and whether an error is reported.  A `null` leaves the
field as it is, a value of the wrong kind for `message` or `file` is recorded
as an error and decoding goes on, an error of `Time.UnmarshalJSON` ends the
decoding at once, and a key that names no field is skipped. -/
def decodeMembers : List (String × JValue) → LogEntry → Bool → LogEntry × Bool
  | [], e, err => (e, err)
  | (key, v) :: ms, e, err =>
    match findField key, v with
    | none, _ => decodeMembers ms e err
    | some _, .null => decodeMembers ms e err
    | some .Timestamp, .str raw _ =>
      match timeUnmarshalJSON raw with
      | some t => decodeMembers ms { e with Timestamp := t } err
      | none => (e, true)
    | some .Timestamp, _ => (e, true)
    | some .Message, .str _ val => decodeMembers ms { e with Message := val } err
    | some .Message, _ => decodeMembers ms e true
    | some .File, .str _ val => decodeMembers ms { e with File := val } err
    | some .File, _ => decodeMembers ms e true

/-- Decode a JSON value into the entry `e`: an object fills the fields, `null`
changes nothing, any other value is an error and changes nothing. -/
def decodeValue (v : JValue) (e : LogEntry) : LogEntry × Bool :=
  match v with
  | .obj ms => decodeMembers ms e false
  | .null => (e, false)
  | _ => (e, true)

/-- The function `json.Unmarshal` with a `*LogEntry` as target: the entry after
the call and whether the returned error is not nil. -/
def Unmarshal (log : String) (e : LogEntry) : LogEntry × Bool :=
  match jsonParse log with
  | none => (e, true)
  | some v => decodeValue v e

/-! ## Lines and start-up -/

/-- The record that `processLog` hands to `addToBuffer` (lines 117-122);
`wall` is what `time.Now()` returns. -/
def parseLine (filePath : String) (wall : Time) (log : String) : LogEntry :=
  if Valid log then (Unmarshal log LogEntry.zero).1
  else { Timestamp := wall, Message := log, File := filePath }

/-- The method `processLog` (lines 116-124), called at monotonic instant `now`
when the wall clock reads `wall`. -/
def processLog (a : Attempt) (wall : Time) (now : Nat) (log : String) (w : World) :
    Outcome :=
  addToBuffer a now (parseLine w.lc.FilePath wall log) w

/-- How `NewLogCollector` ends: with a collector, with the error of
`fsnotify.NewWatcher`, or with the panic of `make` on a negative capacity. -/
inductive Started where
  | collector (w : World)
  | failed
  | panicked
deriving DecidableEq, Repr

/-- The function `NewLogCollector` (lines 43-75), called at monotonic instant
`now` in a process that has the timers `timers`.  `watcherErr` tells whether
`fsnotify.NewWatcher` fails; `bufferTimeout` is in nanoseconds. -/
def NewLogCollector (watcherErr : Bool) (now : Nat) (timers : List Timer)
    (zincIndexName filePath zincURL zincUser zincPass : String)
    (bufferSize : Int) (bufferTimeout : Int) : Started :=
  if watcherErr then .failed
  else if bufferSize < 0 then .panicked
  else
    let r := AfterFunc now (10 * Second) timers
    .collector
      { lc := { FilePath := filePath, ZincURL := zincURL ++ "/api/_bulkv2",
                ZincUser := zincUser, ZincPass := zincPass, ZincIndex := zincIndexName,
                BufferSize := bufferSize, buffer := [], mutex := false,
                watcherClosed := false, cancelled := false, timer := some r.2 },
        timers := r.1, posted := [] }

/-! ## Sequences of calls -/

/-- One call made on the collector: `addToBuffer` by the tailing goroutine, the
timer callback `func() { lc.flushBuffer() }`, or `Stop`.  Each carries the
answer the environment would give to a submission made during the call. -/
inductive Call where
  | add (now : Nat) (entry : LogEntry) (a : Attempt)
  | timerFlush (a : Attempt)
  | stop (a : Attempt)
deriving DecidableEq, Repr

/-- Run one call in a world. -/
def Call.run (c : Call) (w : World) : Outcome :=
  match c with
  | .add now entry a => addToBuffer a now entry w
  | .timerFlush a => flushBuffer a w
  | .stop a => Stop a w

/-- Make the next call after an earlier one ended with `o`.  A parked goroutine
does not stop the others from calling; after a runtime abort nothing runs. -/
def exec (o : Outcome) (c : Call) : Outcome :=
  match o with
  | .crashed w => .crashed w
  | .returned w => c.run w
  | .blocked w => c.run w

/-- Make the calls of `cs` one after the other, starting in world `w`. -/
def runCalls (w : World) (cs : List Call) : Outcome :=
  cs.foldl exec (.returned w)

/-- The records of all submitted batches, in submission order. -/
def submitted (w : World) : List LogEntry :=
  (w.posted.map (fun r => r.payload.Records)).flatten

/-- The entries passed to `addToBuffer` in a sequence of calls, in order. -/
def appended : List Call → List LogEntry
  | [] => []
  | .add _ entry _ :: cs => entry :: appended cs
  | _ :: cs => appended cs

/-- Whether every answer of the environment in `cs` is a 200 response. -/
def allSucceed (cs : List Call) : Bool :=
  cs.all fun c =>
    match c with
    | .add _ _ a => a == .response StatusOK
    | .timerFlush a => a == .response StatusOK
    | .stop a => a == .response StatusOK

/-- The bound that the calls keep: the threshold is `K`, the buffer holds at most
`K` records and fewer than `K` while the mutex is free, and no submitted batch
holds more than `K` records. -/
def Bounded (K : Int) (w : World) : Prop :=
  w.lc.BufferSize = K ∧ (w.lc.buffer.length : Int) ≤ K ∧
  (w.lc.mutex = false → (w.lc.buffer.length : Int) < K) ∧
  ∀ r ∈ w.posted, (r.payload.Records.length : Int) ≤ K

/-- The values that the members of an object give to the field `f`, in the
order written. -/
def valuesFor (f : Field) (ms : List (String × JValue)) : List JValue :=
  (ms.filter (fun m => findField m.1 = some f)).map (fun m => m.2)

/-- The time a field holds after the values `vs` were stored into it in turn,
each of them `null` or a string in RFC 3339 form. -/
def storedTime (vs : List JValue) (t0 : Time) : Time :=
  vs.foldl (fun t v =>
    match v with
    | .str raw _ => (timeUnmarshalJSON raw).getD t
    | _ => t) t0

/-- The string a field holds after the values `vs` were stored into it in turn:
the last string among them. -/
def storedString (vs : List JValue) (s0 : String) : String :=
  vs.foldl (fun s v =>
    match v with
    | .str _ val => val
    | _ => s) s0

/-- Whether `Time.UnmarshalJSON` accepts the value. -/
def timeAccepts (v : JValue) : Bool :=
  match v with
  | .null => true
  | .str raw _ => (timeUnmarshalJSON raw).isSome
  | _ => false

/-! ## What a structured line is

The text of a structured line is described here without the reader: which
characters are written for which value.  These descriptions are what the
statement about structured lines quantifies over. -/

/-- White space between the tokens of a JSON text: spaces, tabs, line feeds and
carriage returns. -/
def IsBlank (cs : List Char) : Prop :=
  ∀ c ∈ cs, c = ' ' ∨ c = Char.ofNat 9 ∨ c = Char.ofNat 10 ∨ c = Char.ofNat 13

/-- The character that writes the decimal digit `k`. -/
def digitChar (k : Nat) : Char := Char.ofNat (48 + k)

/-- A number below 100 written with two digits. -/
def twoDigits (n : Nat) : List Char := [digitChar (n / 10), digitChar (n % 10)]

/-- A number below 10000 written with four digits. -/
def fourDigits (n : Nat) : List Char :=
  [digitChar (n / 1000), digitChar (n / 100 % 10), digitChar (n / 10 % 10), digitChar (n % 10)]

/-- A run of decimal digits. -/
def IsDigits (cs : List Char) : Prop :=
  ∃ ks : List Nat, (∀ k ∈ ks, k < 10) ∧ cs = ks.map digitChar

/-- The letter written after a backslash, and the character it stands for. -/
def escapeTable : List (Char × Char) :=
  [(Char.ofNat 34, Char.ofNat 34), (Char.ofNat 92, Char.ofNat 92), ('/', '/'),
   ('b', Char.ofNat 8), ('f', Char.ofNat 12), ('n', Char.ofNat 10), ('r', Char.ofNat 13),
   ('t', Char.ofNat 9)]

/-- The hexadecimal digits and their values. -/
def hexTable : List (Char × Nat) :=
  [('0', 0), ('1', 1), ('2', 2), ('3', 3), ('4', 4), ('5', 5), ('6', 6), ('7', 7),
   ('8', 8), ('9', 9), ('a', 10), ('b', 11), ('c', 12), ('d', 13), ('e', 14), ('f', 15),
   ('A', 10), ('B', 11), ('C', 12), ('D', 13), ('E', 14), ('F', 15)]

/-- Four hexadecimal digits that write the number `n`. -/
def HexQuad (h1 h2 h3 h4 : Char) (n : Nat) : Prop :=
  ∃ a b c d, (h1, a) ∈ hexTable ∧ (h2, b) ∈ hexTable ∧ (h3, c) ∈ hexTable ∧
    (h4, d) ∈ hexTable ∧ n = ((a * 16 + b) * 16 + c) * 16 + d

/-- The text between the quotes of a JSON string, and the string it stands for:
characters written as they are (no quote, no backslash, no control character),
the two-character escapes, `\uXXXX` for a character that is not a surrogate,
and a pair of `\uXXXX` surrogates for a character beyond U+FFFF. -/
inductive StringText : List Char → List Char → Prop where
  | done : StringText [] []
  | plain (c : Char) (raw val : List Char) :
      c ≠ Char.ofNat 34 → c ≠ Char.ofNat 92 → 32 ≤ c.toNat →
      StringText raw val → StringText (c :: raw) (c :: val)
  | escape (e d : Char) (raw val : List Char) :
      (e, d) ∈ escapeTable →
      StringText raw val → StringText (Char.ofNat 92 :: e :: raw) (d :: val)
  | unicode (h1 h2 h3 h4 : Char) (n : Nat) (raw val : List Char) :
      HexQuad h1 h2 h3 h4 n → (n < 0xD800 ∨ 0xE000 ≤ n) →
      StringText raw val →
      StringText (Char.ofNat 92 :: 'u' :: h1 :: h2 :: h3 :: h4 :: raw) (Char.ofNat n :: val)
  | pair (h1 h2 h3 h4 g1 g2 g3 g4 : Char) (n m : Nat) (raw val : List Char) :
      HexQuad h1 h2 h3 h4 n → HexQuad g1 g2 g3 g4 m →
      0xD800 ≤ n → n < 0xDC00 → 0xDC00 ≤ m → m < 0xE000 →
      StringText raw val →
      StringText
        (Char.ofNat 92 :: 'u' :: h1 :: h2 :: h3 :: h4 ::
          Char.ofNat 92 :: 'u' :: g1 :: g2 :: g3 :: g4 :: raw)
        (Char.ofNat ((n - 0xD800) * 1024 + (m - 0xDC00) + 0x10000) :: val)

/-- The text of a JSON number: an optional minus, `0` or digits that do not
start with `0`, an optional fraction, an optional exponent. -/
def NumberText (text : List Char) : Prop :=
  ∃ sign int frac exp : List Char, text = sign ++ int ++ frac ++ exp ∧
    (sign = [] ∨ sign = ['-']) ∧
    (int = ['0'] ∨ ∃ k ds, 1 ≤ k ∧ k ≤ 9 ∧ IsDigits ds ∧ int = digitChar k :: ds) ∧
    (frac = [] ∨ ∃ ds, ds ≠ [] ∧ IsDigits ds ∧ frac = '.' :: ds) ∧
    (exp = [] ∨ ∃ e sg ds, (e = 'e' ∨ e = 'E') ∧ (sg = [] ∨ sg = ['+'] ∨ sg = ['-']) ∧
      ds ≠ [] ∧ IsDigits ds ∧ exp = e :: sg ++ ds)

/-- What a text writes: one value, the elements of an array that is not empty,
or the members of an object that is not empty. -/
inductive Shape where
  | value (v : JValue)
  | elements (vs : List JValue)
  | members (ms : List (String × JValue))

/-- The JSON grammar: `Written d s text` says that `text` writes `s` inside `d`
enclosing arrays and objects.  An array or object may be opened only while
fewer than 10000 enclose it. -/
inductive Written : Nat → Shape → List Char → Prop where
  | null (d : Nat) : Written d (.value .null) ['n', 'u', 'l', 'l']
  | true (d : Nat) : Written d (.value (.bool true)) ['t', 'r', 'u', 'e']
  | false (d : Nat) : Written d (.value (.bool false)) ['f', 'a', 'l', 's', 'e']
  | num (d : Nat) (text : List Char) :
      NumberText text → Written d (.value (.num (String.mk text))) text
  | str (d : Nat) (raw val : List Char) :
      StringText raw val →
      Written d (.value (.str (String.mk raw) (String.mk val)))
        (Char.ofNat 34 :: raw ++ [Char.ofNat 34])
  | emptyArr (d : Nat) (ws : List Char) :
      d < 10000 → IsBlank ws → Written d (.value (.arr [])) ('[' :: ws ++ [']'])
  | arr (d : Nat) (vs : List JValue) (text : List Char) :
      d < 10000 → Written (d + 1) (.elements vs) text →
      Written d (.value (.arr vs)) ('[' :: text ++ [']'])
  | lastElement (d : Nat) (v : JValue) (ws1 text ws2 : List Char) :
      IsBlank ws1 → IsBlank ws2 → Written d (.value v) text →
      Written d (.elements [v]) (ws1 ++ text ++ ws2)
  | moreElements (d : Nat) (v : JValue) (vs : List JValue) (ws1 text ws2 more : List Char) :
      IsBlank ws1 → IsBlank ws2 → Written d (.value v) text →
      Written d (.elements vs) more →
      Written d (.elements (v :: vs)) (ws1 ++ text ++ ws2 ++ ',' :: more)
  | emptyObj (d : Nat) (ws : List Char) :
      d < 10000 → IsBlank ws →
      Written d (.value (.obj [])) (Char.ofNat 123 :: ws ++ [Char.ofNat 125])
  | obj (d : Nat) (ms : List (String × JValue)) (text : List Char) :
      d < 10000 → Written (d + 1) (.members ms) text →
      Written d (.value (.obj ms)) (Char.ofNat 123 :: text ++ [Char.ofNat 125])
  | lastMember (d : Nat) (key : List Char) (v : JValue) (ws1 rawKey ws2 ws3 text ws4 : List Char) :
      IsBlank ws1 → IsBlank ws2 → IsBlank ws3 → IsBlank ws4 →
      StringText rawKey key → Written d (.value v) text →
      Written d (.members [(String.mk key, v)])
        (ws1 ++ Char.ofNat 34 :: rawKey ++ Char.ofNat 34 :: ws2 ++ ':' :: ws3 ++ text ++ ws4)
  | moreMembers (d : Nat) (key : List Char) (v : JValue) (ms : List (String × JValue))
      (ws1 rawKey ws2 ws3 text ws4 more : List Char) :
      IsBlank ws1 → IsBlank ws2 → IsBlank ws3 → IsBlank ws4 →
      StringText rawKey key → Written d (.value v) text →
      Written d (.members ms) more →
      Written d (.members ((String.mk key, v) :: ms))
        (ws1 ++ Char.ofNat 34 :: rawKey ++ Char.ofNat 34 :: ws2 ++ ':' :: ws3 ++ text ++ ws4 ++
          ',' :: more)

/-- The number that a run of decimal digits writes. -/
def digitsValue (ks : List Nat) : Nat := ks.foldl (fun x k => 10 * x + k) 0

/-- The fraction of a second after the seconds of a time, and the nanoseconds it
stands for: nothing, or a period and digits, of which the first nine count. -/
inductive FractionText : Nat → List Char → Prop where
  | none : FractionText 0 []
  | digits (ks : List Nat) :
      ks ≠ [] → (∀ k ∈ ks, k < 10) →
      FractionText (digitsValue (ks.take 9) * 10 ^ (9 - (ks.take 9).length))
        ('.' :: ks.map digitChar)

/-- The zone at the end of a time, and its offset in seconds east of UTC: `Z`,
or a sign, two digits of hours up to 23, a colon and two digits of minutes up to
59. -/
inductive ZoneText : Int → List Char → Prop where
  | utc : ZoneText 0 ['Z']
  | east (h m : Nat) :
      h ≤ 23 → m ≤ 59 →
      ZoneText (((h * 60 + m) * 60 : Nat) : Int) ('+' :: twoDigits h ++ ':' :: twoDigits m)
  | west (h m : Nat) :
      h ≤ 23 → m ≤ 59 →
      ZoneText (-(((h * 60 + m) * 60 : Nat) : Int)) ('-' :: twoDigits h ++ ':' :: twoDigits m)

/-- The number of days of a month of the Gregorian calendar. -/
def monthLength (year month : Nat) : Nat :=
  if month = 2 then
    (if (year % 4 = 0 ∧ year % 100 ≠ 0) ∨ year % 400 = 0 then 29 else 28)
  else [31, 28, 31, 30, 31, 30, 31, 31, 30, 31, 30, 31].getD (month - 1) 0

/-- The text of a time in the form `YYYY-MM-DDTHH:MM:SS[.fraction](Z|±hh:mm)` of
RFC 3339, with upper-case `T` and `Z`, a day that exists in the month, and a
second up to 59. -/
def TimeText (t : Time) (text : List Char) : Prop :=
  ∃ (y : Nat) (frac zone : List Char),
    t.year = (y : Int) ∧ y ≤ 9999 ∧ 1 ≤ t.month ∧ t.month ≤ 12 ∧
    1 ≤ t.day ∧ t.day ≤ monthLength y t.month ∧
    t.hour ≤ 23 ∧ t.minute ≤ 59 ∧ t.second ≤ 59 ∧
    FractionText t.nanosecond frac ∧ ZoneText t.offset zone ∧
    text = fourDigits y ++ '-' :: twoDigits t.month ++ '-' :: twoDigits t.day ++
      'T' :: twoDigits t.hour ++ ':' :: twoDigits t.minute ++ ':' :: twoDigits t.second ++
      frac ++ zone

/-- Case folding of a letter of a key: upper case for the ASCII letters, and the
long s and the Kelvin sign read as `S` and `K`. -/
def foldLetter (c : Char) : Char :=
  if c = Char.ofNat 0x17F then 'S'
  else if c = Char.ofNat 0x212A then 'K'
  else c.toUpper

/-- Whether a key names the field with the tag `tag`: the two are equal letter
by letter after case folding. -/
def sameName (key tag : String) : Bool :=
  decide (key.data.map foldLetter = tag.data.map foldLetter)

/-! ## The reader on a written text

The shape of the statement that the reader of the previous sections returns
what a text writes; it is proved for every written text further down. -/

/-- What may follow a number: the end of the text, or a character that is not a
digit, a period or the letter of an exponent. -/
def EndsNumber (rest : List Char) : Prop :=
  ∀ c, rest.head? = some c → c.isDigit = false ∧ c ≠ '.' ∧ c ≠ 'e' ∧ c ≠ 'E'

/-- What the reader does on a written text: it returns what was written and
the text that follows, when it is given enough fuel. -/
def Reads (d : Nat) (s : Shape) (text : List Char) : Prop :=
  match s with
  | .value v => ∀ fuel rest, 2 * text.length ≤ fuel → EndsNumber rest →
      parseValue fuel d (text ++ rest) = some (v, rest)
  | .elements vs => ∀ fuel rest acc, 2 * text.length + 1 ≤ fuel →
      parseElements fuel d (text ++ ']' :: rest) acc = some (acc ++ vs, rest)
  | .members ms => ∀ fuel rest acc, 2 * text.length + 1 ≤ fuel →
      parseMembers fuel d (text ++ Char.ofNat 125 :: rest) acc = some (acc ++ ms, rest)

/-! ## Goroutines

The calls above run one after the other.  To speak about calls that overlap in
time, the same methods are cut into their statements: every goroutine has a
program counter, and one step runs the next statement of one goroutine.  A
goroutine that stands at `mutex.Lock` can take its step only while the mutex is
unlocked.  `holder` is a ghost variable: the goroutine whose `Lock` succeeded
last and that has not unlocked yet. -/

/-- Who called `flushBuffer`: the timer callback (lines 69 and 142), `Stop`
(line 189) or `addToBuffer` (line 132). -/
inductive Caller where
  | timer
  | stop
  | add
deriving DecidableEq, Repr

/-- The statement a goroutine runs next. -/
inductive PC where
  /-- outside of every call -/
  | idle
  /-- In `addToBuffer`, line 127: `lc.mutex.Lock()` -/
  | addLock (now : Nat) (entry : LogEntry)
  /-- In `addToBuffer`, lines 130-131: the append and the test of the length -/
  | addAppend (now : Nat) (entry : LogEntry)
  /-- In `addToBuffer`, line 134: `lc.resetFlushTimer()` -/
  | addReset (now : Nat)
  /-- In `addToBuffer`, the deferred `lc.mutex.Unlock()` of line 128 -/
  | addUnlock
  /-- In `Stop`, line 188: `lc.cancel()` -/
  | stopCancel
  /-- In `Stop`, line 190: `lc.watcher.Close()` -/
  | stopClose
  /-- In `flushBuffer`, line 146: `lc.mutex.Lock()` -/
  | flushLock (c : Caller)
  /-- In `flushBuffer`, line 149: the test for an empty buffer -/
  | flushCheck (c : Caller)
  /-- In `flushBuffer`, lines 153-171: marshal, build the request, call `client.Do` -/
  | flushBuild (c : Caller)
  /-- In `flushBuffer`, inside `client.Do` (line 171): the submission is in progress -/
  | flushDo (c : Caller)
  /-- In `flushBuffer`, line 184: `lc.buffer = nil` -/
  | flushClear (c : Caller)
  /-- In `flushBuffer`, the deferred `lc.mutex.Unlock()` of line 147 -/
  | flushUnlock (c : Caller)
deriving DecidableEq, Repr

/-- Whether the statement lies between a `Lock` of the goroutine that succeeded
and the matching `Unlock`.  A `flushBuffer` called by `addToBuffer` starts
there. -/
def PC.holdsMutex : PC → Bool
  | .addAppend _ _ => true
  | .addReset _ => true
  | .addUnlock => true
  | .flushLock .add => true
  | .flushCheck _ => true
  | .flushBuild _ => true
  | .flushDo _ => true
  | .flushClear _ => true
  | .flushUnlock _ => true
  | _ => false

/-- Whether the statement lies inside a `flushBuffer` called by `addToBuffer`,
after its `Lock`. -/
def PC.pastNestedLock : PC → Bool
  | .flushCheck .add => true
  | .flushBuild .add => true
  | .flushDo .add => true
  | .flushClear .add => true
  | .flushUnlock .add => true
  | _ => false

/-- The collector shared by the goroutines, and where each goroutine stands. -/
structure System where
  w : World
  holder : Option Nat
  pc : Nat → PC
  crashed : Bool

/-- What a goroutine does next: start a call when it is idle, or run the next
statement of its call, with the answer of the environment if one is asked for. -/
inductive Action where
  | callAdd (now : Nat) (entry : LogEntry)
  | callTimer
  | callStop
  | next (a : Attempt)
deriving DecidableEq, Repr

/-- Goroutine `g` moves on to statement `p` and the world becomes `w`. -/
def System.goto (s : System) (g : Nat) (p : PC) (w : World) : System :=
  { s with w := w, pc := Function.update s.pc g p }

/-- Goroutine `g` succeeds in `lc.mutex.Lock()` and moves on to `p`, or waits
(no step) while the mutex is locked. -/
def System.lock (s : System) (g : Nat) (p : PC) : Option System :=
  if s.w.lc.mutex then none
  else some { s with w := lockMutex s.w, holder := some g, pc := Function.update s.pc g p }

/-- Goroutine `g` runs `lc.mutex.Unlock()` and moves on to `p`. -/
def System.unlock (s : System) (g : Nat) (p : PC) : System :=
  match Unlock s.w with
  | .returned w => { s with w := w, holder := none, pc := Function.update s.pc g p }
  | _ => { s with crashed := true }

/-- Where `flushBuffer` returns to. -/
def Caller.after : Caller → PC
  | .timer => .idle
  | .stop => .stopClose
  | .add => .addUnlock

/-- One step of goroutine `g`; `none` when it cannot move. -/
def step (g : Nat) (act : Action) (s : System) : Option System :=
  if s.crashed then none
  else
    match s.pc g, act with
    | .idle, .callAdd now entry => some (s.goto g (.addLock now entry) s.w)
    | .idle, .callTimer => some (s.goto g (.flushLock .timer) s.w)
    | .idle, .callStop => some (s.goto g .stopCancel s.w)
    | .addLock now entry, .next _ => s.lock g (.addAppend now entry)
    | .addAppend now entry, .next _ =>
      let w1 := { s.w with lc := { s.w.lc with buffer := s.w.lc.buffer ++ [entry] } }
      if w1.lc.BufferSize ≤ (w1.lc.buffer.length : Int) then
        some (s.goto g (.flushLock .add) w1)
      else some (s.goto g (.addReset now) w1)
    | .addReset now, .next _ => some (s.goto g .addUnlock (resetFlushTimer now s.w))
    | .addUnlock, .next _ => some (s.unlock g .idle)
    | .stopCancel, .next _ =>
      some (s.goto g (.flushLock .stop) { s.w with lc := { s.w.lc with cancelled := true } })
    | .stopClose, .next _ =>
      some (s.goto g .idle { s.w with lc := { s.w.lc with watcherClosed := true } })
    | .flushLock c, .next _ => s.lock g (.flushCheck c)
    | .flushCheck c, .next _ =>
      if s.w.lc.buffer.length = 0 then some (s.goto g (.flushUnlock c) s.w)
      else some (s.goto g (.flushBuild c) s.w)
    | .flushBuild c, .next a =>
      match a with
      | .marshalError => some (s.goto g (.flushUnlock c) s.w)
      | .requestError => some (s.goto g (.flushUnlock c) s.w)
      | _ => some (s.goto g (.flushDo c) (post s.w))
    | .flushDo c, .next a =>
      match a with
      | .response status =>
        if status ≠ StatusOK then some (s.goto g (.flushUnlock c) s.w)
        else some (s.goto g (.flushClear c) s.w)
      | _ => some (s.goto g (.flushUnlock c) s.w)
    | .flushClear c, .next _ =>
      some (s.goto g (.flushUnlock c) { s.w with lc := { s.w.lc with buffer := [] } })
    | .flushUnlock c, .next _ => some (s.unlock g c.after)
    | _, _ => none

/-- Run a schedule: each entry names a goroutine and what it does; an entry
whose goroutine cannot move is skipped. -/
def runSchedule (s : System) (sched : List (Nat × Action)) : System :=
  sched.foldl (fun s x => (step x.1 x.2 s).getD s) s

/-- All goroutines idle around the collector of world `w`. -/
def System.start (w : World) : System :=
  { w := w, holder := none, pc := fun _ => .idle, crashed := false }

/-- What the steps keep true: the mutex is locked exactly when it has a holder,
the process has not aborted, a goroutine between its `Lock` and its `Unlock`
is the holder, and no goroutine is past the `Lock` of a `flushBuffer` called by
`addToBuffer`. -/
def System.Consistent (s : System) : Prop :=
  s.w.lc.mutex = s.holder.isSome ∧ s.crashed = false ∧
  ∀ g, ((s.pc g).holdsMutex = true → s.holder = some g) ∧ (s.pc g).pastNestedLock = false

/-! ## Sample data -/

/-- A record with message `a`. -/
def entryA : LogEntry := { Timestamp := Time.zero, Message := "a", File := "app.log" }

/-- A record with message `b`. -/
def entryB : LogEntry := { Timestamp := Time.zero, Message := "b", File := "app.log" }

/-- The world right after `NewLogCollector` returned, at instant 0 in a process
without other timers, a collector with size threshold `K`. -/
def freshWorld (K : Int) : World :=
  { lc := { FilePath := "app.log", ZincURL := "http://zinc:4080/api/_bulkv2",
            ZincUser := "admin", ZincPass := "secret", ZincIndex := "logs",
            BufferSize := K, buffer := [], mutex := false, watcherClosed := false,
            cancelled := false, timer := some 0 },
    timers := [{ deadline := 10 * Second, stopped := false }], posted := [] }

/-- The time 2024-01-02T03:04:05Z. -/
def structuredTime : Time :=
  { year := 2024, month := 1, day := 2, hour := 3, minute := 4, second := 5,
    nanosecond := 0, offset := 0 }

/-- The wall-clock reading used in the examples. -/
def wallClock : Time :=
  { year := 2026, month := 5, day := 6, hour := 7, minute := 8, second := 9,
    nanosecond := 10, offset := 3600 }

/-- A structured line with white space, a member that names no field, a key in
another letter case, an escape, a fraction of a second and a zone offset. -/
def richLine : String :=
  " \x7b\"host\":[\"a\",1.5e3,null], \"@timestamp\":\"2024-01-02T03:04:05.25+05:30\"," ++
  " \"Message\" : \"disk \\\"full\\\"\", \"file\":\"/var/log/syslog\"\x7d "

/-- The text of `richLine` between the outer white space. -/
def richText : List Char :=
  ("\x7b\"host\":[\"a\",1.5e3,null], \"@timestamp\":\"2024-01-02T03:04:05.25+05:30\"," ++
   " \"Message\" : \"disk \\\"full\\\"\", \"file\":\"/var/log/syslog\"\x7d").data

/-- The time written in `richLine`. -/
def richTime : Time :=
  { year := 2024, month := 1, day := 2, hour := 3, minute := 4, second := 5,
    nanosecond := 250000000, offset := 19800 }

/-- The members of the object written in `richLine`. -/
def richMembers : List (String × JValue) :=
  [("host", .arr [.str "a" "a", .num "1.5e3", .null]),
   ("@timestamp", .str "2024-01-02T03:04:05.25+05:30" "2024-01-02T03:04:05.25+05:30"),
   ("Message", .str "disk \\\"full\\\"" "disk \"full\""),
   ("file", .str "/var/log/syslog" "/var/log/syslog")]

/-- A line that is a JSON object with the three fields and, before them, a
member that holds 10000 arrays inside one another. -/
def deepLine : String :=
  String.mk (Char.ofNat 123 :: cQuote :: 'x' :: cQuote :: ':' ::
    (List.replicate 10000 '[' ++ (List.replicate 10000 ']' ++
      ",\"@timestamp\":\"2024-01-02T03:04:05Z\",\"message\":\"m\",\"file\":\"f\"\x7d".data)))

/-- The world after `addToBuffer(a)` at instant 0 in `freshWorld 2`: the record
is buffered, the first timer is stopped and a second one is armed. -/
def bufferedWorld : World :=
  { lc := { (freshWorld 2).lc with buffer := [entryA], timer := some 1 },
    timers := [{ deadline := 10 * Second, stopped := true },
               { deadline := 10 * Second, stopped := false }],
    posted := [] }

/-- The request that carries the batch `[a]` of `bufferedWorld`. -/
def requestA : Request :=
  { url := "http://zinc:4080/api/_bulkv2", user := "admin", pass := "secret",
    payload := { Index := "logs", Records := [entryA] } }

/-- A schedule of two goroutines: goroutine 0 runs the timer callback up to the
middle of `client.Do`, goroutine 1 has called `Stop` and stands at the `Lock`
of `flushBuffer`. -/
def overlapSchedule : List (Nat × Action) :=
  [(0, .callTimer), (1, .callStop), (0, .next .transportError), (1, .next .transportError),
   (1, .next .transportError), (0, .next .transportError), (1, .next .transportError),
   (0, .next (.response StatusOK)), (1, .next (.response StatusOK))]

/-! ## Theorems: the mutex and single calls -/

theorem flushBuffer_of_locked (a : Attempt) (w : World) (h : w.lc.mutex = true) :
    flushBuffer a w = .blocked w := by
  simp [flushBuffer, h]

theorem addToBuffer_of_locked (a : Attempt) (now : Nat) (e : LogEntry) (w : World)
    (h : w.lc.mutex = true) : addToBuffer a now e w = .blocked w := by
  simp [addToBuffer, h]

theorem Stop_of_locked (a : Attempt) (w : World) (h : w.lc.mutex = true) :
    Stop a w = .blocked { w with lc := { w.lc with cancelled := true } } := by
  simp [Stop, flushBuffer, h]

theorem unlock_lockMutex (w : World) (h : w.lc.mutex = false) :
    Unlock (lockMutex w) = .returned w := by
  obtain ⟨lc, timers, posted⟩ := w
  obtain ⟨_, _, _, _, _, _, _, m, _, _, _⟩ := lc
  simp only at h
  subst h
  rfl

theorem flushBuffer_of_empty (a : Attempt) (w : World) (hfree : w.lc.mutex = false)
    (hbuf : w.lc.buffer = []) : flushBuffer a w = .returned w := by
  have h := unlock_lockMutex w hfree
  simp [flushBuffer, hfree, lockMutex, hbuf] at h ⊢
  simpa [lockMutex] using h

theorem NewLogCollector_fresh (K T : Int) (hK : 0 ≤ K) :
    NewLogCollector false 0 [] "logs" "app.log" "http://zinc:4080" "admin" "secret" K T
      = .collector (freshWorld K) := by
  have h : ¬ K < 0 := by omega
  simp [NewLogCollector, h, AfterFunc, freshWorld]

/-- C8: in every state whose buffer is empty, `flushBuffer` and `Stop` submit
nothing and leave the buffer empty; with the mutex free `flushBuffer` returns
at once in the unchanged state and `Stop` returns with only the context
cancelled and the watcher closed. -/
theorem flushBuffer_empty_is_noop (a : Attempt) (w : World) (hbuf : w.lc.buffer = []) :
    (flushBuffer a w).world.posted = w.posted ∧ (flushBuffer a w).world.lc.buffer = [] ∧
    (Stop a w).world.posted = w.posted ∧ (Stop a w).world.lc.buffer = [] ∧
    (w.lc.mutex = false →
      flushBuffer a w = .returned w ∧
      Stop a w = .returned
        { w with lc := { w.lc with cancelled := true, watcherClosed := true } }) := by
  obtain ⟨⟨_, _, _, _, _, _, buf, m, _, _, _⟩, timers, posted⟩ := w
  simp only at hbuf
  subst hbuf
  cases m <;> simp [flushBuffer, Stop, Unlock, lockMutex, Outcome.world]

theorem flushBuffer_empty_is_noop_witness :
    (freshWorld 2).lc.buffer = [] ∧
    (flushBuffer (.response StatusOK) (freshWorld 2)).world.posted = (freshWorld 2).posted ∧
    (flushBuffer (.response StatusOK) (freshWorld 2)).world.lc.buffer = [] ∧
    (Stop (.response StatusOK) (freshWorld 2)).world.posted = (freshWorld 2).posted ∧
    (Stop (.response StatusOK) (freshWorld 2)).world.lc.buffer = [] ∧
    ((freshWorld 2).lc.mutex = false →
      flushBuffer (.response StatusOK) (freshWorld 2) = .returned (freshWorld 2) ∧
      Stop (.response StatusOK) (freshWorld 2) = .returned
        { freshWorld 2 with
          lc := { (freshWorld 2).lc with cancelled := true, watcherClosed := true } }) :=
  ⟨rfl, flushBuffer_empty_is_noop (.response StatusOK) (freshWorld 2) rfl⟩

theorem addToBuffer_full_blocks (a : Attempt) (now : Nat) (e : LogEntry)
    (w : World) (hfree : w.lc.mutex = false)
    (hfull : w.lc.BufferSize ≤ (w.lc.buffer.length : Int) + 1) :
    addToBuffer a now e w =
      .blocked { w with lc := { w.lc with mutex := true, buffer := w.lc.buffer ++ [e] } } := by
  obtain ⟨⟨_, _, _, _, _, K, buf, m, _, _, _⟩, timers, posted⟩ := w
  simp only at hfree hfull
  subst hfree
  simp only [addToBuffer, lockMutex, flushBuffer]
  simp only [List.length_append, List.length_singleton, Nat.cast_add, Nat.cast_one]
  simp [hfull]

/-- C4 (the code deadlocks): with the mutex free, an `addToBuffer` that brings
the buffer to the threshold or beyond takes the mutex, appends the record and
then is parked for ever in the `mutex.Lock` of the nested `flushBuffer`: it does
not return, nothing is submitted, the mutex stays held, and every later
`flushBuffer`, `addToBuffer` and `Stop` is parked as well. -/
theorem addToBuffer_at_threshold_deadlocks (a : Attempt) (now : Nat) (e : LogEntry)
    (w : World) (hfree : w.lc.mutex = false)
    (hfull : w.lc.BufferSize ≤ (w.lc.buffer.length : Int) + 1) :
    ∃ w1, addToBuffer a now e w = .blocked w1 ∧
      w1.lc.mutex = true ∧ w1.lc.buffer = w.lc.buffer ++ [e] ∧ w1.posted = w.posted ∧
      (∀ a2, flushBuffer a2 w1 = .blocked w1) ∧
      (∀ a2 now2 e2, addToBuffer a2 now2 e2 w1 = .blocked w1) ∧
      (∀ a2, (Stop a2 w1).isReturned = false ∧ (Stop a2 w1).world.posted = w.posted) := by
  refine ⟨_, addToBuffer_full_blocks a now e w hfree hfull, rfl, rfl, rfl, ?_, ?_, ?_⟩
  · intro a2
    exact flushBuffer_of_locked a2 _ rfl
  · intro a2 now2 e2
    exact addToBuffer_of_locked a2 now2 e2 _ rfl
  · intro a2
    rw [Stop_of_locked a2 _ rfl]
    exact ⟨rfl, rfl⟩

theorem addToBuffer_at_threshold_deadlocks_witness :
    (freshWorld 1).lc.mutex = false ∧
    (freshWorld 1).lc.BufferSize ≤ ((freshWorld 1).lc.buffer.length : Int) + 1 ∧
    ∃ w1, addToBuffer (.response StatusOK) 0 entryA (freshWorld 1) = .blocked w1 ∧
      w1.lc.mutex = true ∧ w1.lc.buffer = (freshWorld 1).lc.buffer ++ [entryA] ∧
      w1.posted = (freshWorld 1).posted ∧
      (∀ a2, flushBuffer a2 w1 = .blocked w1) ∧
      (∀ a2 now2 e2, addToBuffer a2 now2 e2 w1 = .blocked w1) ∧
      (∀ a2, (Stop a2 w1).isReturned = false ∧
        (Stop a2 w1).world.posted = (freshWorld 1).posted) :=
  ⟨rfl, by decide,
    addToBuffer_at_threshold_deadlocks (.response StatusOK) 0 entryA (freshWorld 1) rfl
      (by decide)⟩

/-! ## Theorems: failed submissions -/

/-- C3 as stated fails: with one record buffered and the mutex free, a timer
flush that the sink answers with status 500 returns with the record still in
the buffer, and the flush of the following `Stop` submits the record a second
time. -/
theorem flushBuffer_failure_not_drained :
    addToBuffer (.response StatusOK) 0 entryA (freshWorld 2) = .returned bufferedWorld ∧
    flushBuffer (.response 500) bufferedWorld =
      .returned { bufferedWorld with posted := [requestA] } ∧
    (flushBuffer (.response 500) bufferedWorld).world.lc.buffer ≠ [] ∧
    (runCalls bufferedWorld
        [.timerFlush (.response 500), .stop (.response StatusOK)]).world.posted =
      [requestA, requestA] := by
  decide

theorem flushBuffer_posted (a : Attempt) (w : World) :
    (flushBuffer a w).world.posted = w.posted ∨
    (flushBuffer a w).world.posted = w.posted ++ [buildRequest w.lc] := by
  obtain ⟨⟨fp, url, user, pass, idx, K1, buf, m, wc, c, t⟩, timers, posted⟩ := w
  cases m with
  | true => exact Or.inl (by simp [flushBuffer, Outcome.world])
  | false =>
    by_cases hb : buf = []
    · subst hb
      exact Or.inl (by simp [flushBuffer, lockMutex, Unlock, Outcome.world])
    · cases a with
      | marshalError =>
        exact Or.inl (by simp [flushBuffer, lockMutex, Unlock, Outcome.world, hb])
      | requestError =>
        exact Or.inl (by simp [flushBuffer, lockMutex, Unlock, Outcome.world, hb])
      | transportError =>
        exact Or.inr (by simp [flushBuffer, lockMutex, Unlock, Outcome.world, hb, post,
          buildRequest])
      | response status =>
        by_cases hs : status = StatusOK
        · exact Or.inr (by simp [flushBuffer, lockMutex, Unlock, Outcome.world, hb, post,
            buildRequest, hs])
        · exact Or.inr (by simp [flushBuffer, lockMutex, Unlock, Outcome.world, hb, post,
            buildRequest, hs])

theorem addToBuffer_posted (a : Attempt) (now : Nat) (e : LogEntry) (w : World) :
    (addToBuffer a now e w).world.posted = w.posted := by
  cases hm : w.lc.mutex with
  | true => rw [addToBuffer_of_locked a now e w hm]; rfl
  | false =>
    by_cases hfull : w.lc.BufferSize ≤ (w.lc.buffer.length : Int) + 1
    · rw [addToBuffer_full_blocks a now e w hm hfull]
      rfl
    · obtain ⟨⟨fp, url, user, pass, idx, K1, buf, m, wc, c, t⟩, timers, posted⟩ := w
      simp only at hm hfull
      subst hm
      have hnot : ¬ K1 ≤ (((buf ++ [e]).length : Nat) : Int) := by
        simpa using hfull
      simp only [addToBuffer, lockMutex, hnot, if_false, Bool.false_eq_true, resetFlushTimer,
        Unlock, if_true, Outcome.world]

theorem Stop_posted (a : Attempt) (w : World) :
    (Stop a w).world.posted = w.posted ∨
    (Stop a w).world.posted = w.posted ++ [buildRequest w.lc] := by
  have h := flushBuffer_posted a { w with lc := { w.lc with cancelled := true } }
  have hreq : buildRequest { w.lc with cancelled := true } = buildRequest w.lc := rfl
  simp only [hreq] at h
  simp only [Stop]
  cases hf : flushBuffer a { w with lc := { w.lc with cancelled := true } } with
  | returned w2 => rw [hf] at h; exact h
  | blocked w2 => rw [hf] at h; exact h
  | crashed w2 => rw [hf] at h; exact h

theorem flush_reaches_sink (a : Attempt) (w : World)
    (hfree : w.lc.mutex = false) (hne : w.lc.buffer ≠ [])
    (h1 : a ≠ .marshalError) (h2 : a ≠ .requestError) :
    (flushBuffer a w).world.posted = w.posted ++ [buildRequest w.lc] ∧
    (Stop a w).world.posted = w.posted ++ [buildRequest w.lc] := by
  obtain ⟨⟨fp, url, user, pass, idx, K, buf, m, wc, c, t⟩, timers, posted⟩ := w
  simp only at hfree hne
  subst hfree
  cases a with
  | marshalError => exact absurd rfl h1
  | requestError => exact absurd rfl h2
  | transportError =>
    constructor <;>
      simp [Stop, flushBuffer, lockMutex, Unlock, Outcome.world, hne, post, buildRequest]
  | response status =>
    by_cases hs : status = StatusOK
    · constructor <;>
        simp [Stop, flushBuffer, lockMutex, Unlock, Outcome.world, hne, post, buildRequest, hs]
    · constructor <;>
        simp [Stop, flushBuffer, lockMutex, Unlock, Outcome.world, hne, post, buildRequest, hs]

theorem flush_fails_early (a : Attempt) (w : World)
    (hfree : w.lc.mutex = false) (hne : w.lc.buffer ≠ [])
    (h : a = .marshalError ∨ a = .requestError) :
    flushBuffer a w = .returned w ∧ (Stop a w).world.posted = w.posted := by
  obtain ⟨⟨fp, url, user, pass, idx, K, buf, m, wc, c, t⟩, timers, posted⟩ := w
  simp only at hfree hne
  subst hfree
  rcases h with h | h <;> subst h <;> constructor <;>
    simp [Stop, flushBuffer, lockMutex, Unlock, Outcome.world, hne]

/-- C3 as amended: with the mutex free and the buffer not empty, a `flushBuffer`
whose submission fails returns with the collector unchanged, the records still
in the buffer; the request was sent when the failure came from `client.Do` or
from the status code and was not sent otherwise.  Whatever call is made next
either sends no request or sends one request that carries the same records
again; an `addToBuffer` sends none.  After a failure of `json.Marshal` or
`http.NewRequest` the next flush, failing the same way, sends nothing and
changes nothing; after a failure of `client.Do` or of the status code the next
timer flush or `Stop` that gets as far as `client.Do` sends the same records a
second time. -/
theorem flushBuffer_failure_keeps_buffer (a : Attempt) (w : World)
    (hfree : w.lc.mutex = false) (hne : w.lc.buffer ≠ [])
    (hfail : a ≠ .response StatusOK) :
    ∃ w1, flushBuffer a w = .returned w1 ∧ w1.lc = w.lc ∧ w1.lc.buffer ≠ [] ∧
      w1.timers = w.timers ∧
      (w1.posted =
        if a = .marshalError ∨ a = .requestError then w.posted
        else w.posted ++ [buildRequest w.lc]) ∧
      (∀ c : Call, (c.run w1).world.posted = w1.posted ∨
        (c.run w1).world.posted = w1.posted ++ [buildRequest w.lc]) ∧
      (∀ (a2 : Attempt) (now : Nat) (e : LogEntry),
        (addToBuffer a2 now e w1).world.posted = w1.posted) ∧
      (a = .marshalError ∨ a = .requestError →
        flushBuffer a w1 = .returned w1 ∧ (Stop a w1).world.posted = w1.posted) ∧
      (a ≠ .marshalError → a ≠ .requestError →
        ∀ a2 : Attempt, a2 ≠ .marshalError → a2 ≠ .requestError →
          (flushBuffer a2 w1).world.posted = w1.posted ++ [buildRequest w.lc] ∧
          (Stop a2 w1).world.posted = w1.posted ++ [buildRequest w.lc]) := by
  have hcalls : ∀ w1 : World, w1.lc = w.lc → ∀ c : Call,
      (c.run w1).world.posted = w1.posted ∨
        (c.run w1).world.posted = w1.posted ++ [buildRequest w.lc] := by
    intro w1 hlc c
    rw [← hlc]
    cases c with
    | add now e a2 => exact Or.inl (addToBuffer_posted a2 now e w1)
    | timerFlush a2 => exact flushBuffer_posted a2 w1
    | stop a2 => exact Stop_posted a2 w1
  have hagain : ∀ w1 : World, w1.lc = w.lc → ∀ a2 : Attempt,
      a2 ≠ .marshalError → a2 ≠ .requestError →
      (flushBuffer a2 w1).world.posted = w1.posted ++ [buildRequest w.lc] ∧
      (Stop a2 w1).world.posted = w1.posted ++ [buildRequest w.lc] := by
    intro w1 hlc a2 h1 h2
    rw [← hlc]
    rw [← hlc] at hfree hne
    exact flush_reaches_sink a2 w1 hfree hne h1 h2
  have hsame : ∀ w1 : World, w1.lc = w.lc → ∀ a2 : Attempt,
      a2 = .marshalError ∨ a2 = .requestError →
      flushBuffer a2 w1 = .returned w1 ∧ (Stop a2 w1).world.posted = w1.posted := by
    intro w1 hlc a2 h
    rw [← hlc] at hfree hne
    exact flush_fails_early a2 w1 hfree hne h
  obtain ⟨⟨fp, url, user, pass, idx, K, buf, m, wc, c, t⟩, timers, posted⟩ := w
  simp only at hfree hne
  subst hfree
  cases a with
  | marshalError =>
    exact ⟨⟨⟨fp, url, user, pass, idx, K, buf, false, wc, c, t⟩, timers, posted⟩,
      by simp [flushBuffer, lockMutex, Unlock, hne], rfl, hne, rfl, by simp,
      hcalls (World.mk ⟨fp, url, user, pass, idx, K, buf, false, wc, c, t⟩ timers posted) rfl,
      fun a2 now e => addToBuffer_posted a2 now e _,
      fun h => hsame (World.mk ⟨fp, url, user, pass, idx, K, buf, false, wc, c, t⟩ timers
        posted) rfl _ h,
      fun h => absurd rfl h⟩
  | requestError =>
    exact ⟨⟨⟨fp, url, user, pass, idx, K, buf, false, wc, c, t⟩, timers, posted⟩,
      by simp [flushBuffer, lockMutex, Unlock, hne], rfl, hne, rfl, by simp,
      hcalls (World.mk ⟨fp, url, user, pass, idx, K, buf, false, wc, c, t⟩ timers posted) rfl,
      fun a2 now e => addToBuffer_posted a2 now e _,
      fun h => hsame (World.mk ⟨fp, url, user, pass, idx, K, buf, false, wc, c, t⟩ timers
        posted) rfl _ h,
      fun _ h => absurd rfl h⟩
  | transportError =>
    exact ⟨⟨⟨fp, url, user, pass, idx, K, buf, false, wc, c, t⟩, timers,
        posted ++ [buildRequest ⟨fp, url, user, pass, idx, K, buf, false, wc, c, t⟩]⟩,
      by simp [flushBuffer, lockMutex, Unlock, hne, post, buildRequest], rfl, hne, rfl,
      by simp, hcalls (World.mk ⟨fp, url, user, pass, idx, K, buf, false, wc, c, t⟩ timers
        (posted ++ [buildRequest ⟨fp, url, user, pass, idx, K, buf, false, wc, c, t⟩])) rfl,
      fun a2 now e => addToBuffer_posted a2 now e _,
      fun h => by simp at h,
      fun _ _ a2 h1 h2 => hagain (World.mk ⟨fp, url, user, pass, idx, K, buf, false, wc, c, t⟩
        timers (posted ++ [buildRequest ⟨fp, url, user, pass, idx, K, buf, false, wc, c, t⟩]))
        rfl a2 h1 h2⟩
  | response status =>
    have hs : status ≠ StatusOK := fun h => hfail (by rw [h])
    exact ⟨⟨⟨fp, url, user, pass, idx, K, buf, false, wc, c, t⟩, timers,
        posted ++ [buildRequest ⟨fp, url, user, pass, idx, K, buf, false, wc, c, t⟩]⟩,
      by simp [flushBuffer, lockMutex, Unlock, hne, post, buildRequest, hs], rfl, hne, rfl,
      by simp, hcalls (World.mk ⟨fp, url, user, pass, idx, K, buf, false, wc, c, t⟩ timers
        (posted ++ [buildRequest ⟨fp, url, user, pass, idx, K, buf, false, wc, c, t⟩])) rfl,
      fun a2 now e => addToBuffer_posted a2 now e _,
      fun h => by simp at h,
      fun _ _ a2 h1 h2 => hagain (World.mk ⟨fp, url, user, pass, idx, K, buf, false, wc, c, t⟩
        timers (posted ++ [buildRequest ⟨fp, url, user, pass, idx, K, buf, false, wc, c, t⟩]))
        rfl a2 h1 h2⟩

theorem flushBuffer_failure_keeps_buffer_witness :
    bufferedWorld.lc.mutex = false ∧ bufferedWorld.lc.buffer ≠ [] ∧
    Attempt.response 500 ≠ .response StatusOK ∧
    ∃ w1, flushBuffer (.response 500) bufferedWorld = .returned w1 ∧
      w1.lc = bufferedWorld.lc ∧ w1.lc.buffer ≠ [] ∧ w1.timers = bufferedWorld.timers ∧
      (w1.posted =
        if Attempt.response 500 = .marshalError ∨ Attempt.response 500 = .requestError then
          bufferedWorld.posted
        else bufferedWorld.posted ++ [buildRequest bufferedWorld.lc]) ∧
      (∀ c : Call, (c.run w1).world.posted = w1.posted ∨
        (c.run w1).world.posted = w1.posted ++ [buildRequest bufferedWorld.lc]) ∧
      (∀ (a2 : Attempt) (now : Nat) (e : LogEntry),
        (addToBuffer a2 now e w1).world.posted = w1.posted) ∧
      (Attempt.response 500 = .marshalError ∨ Attempt.response 500 = .requestError →
        flushBuffer (.response 500) w1 = .returned w1 ∧
        (Stop (.response 500) w1).world.posted = w1.posted) ∧
      (Attempt.response 500 ≠ .marshalError → Attempt.response 500 ≠ .requestError →
        ∀ a2 : Attempt, a2 ≠ .marshalError → a2 ≠ .requestError →
          (flushBuffer a2 w1).world.posted = w1.posted ++ [buildRequest bufferedWorld.lc] ∧
          (Stop a2 w1).world.posted = w1.posted ++ [buildRequest bufferedWorld.lc]) :=
  ⟨rfl, by decide, by decide,
    flushBuffer_failure_keeps_buffer (.response 500) bufferedWorld rfl (by decide) (by decide)⟩

/-! ## Theorems: the size threshold -/

/-- C2 (the code deadlocks): with threshold 2 and a sink that answers 200, the
append of `a` returns with `a` buffered, and the append of `b` never returns:
no batch is submitted, the buffer still holds `[a, b]` and the mutex is held. -/
theorem addToBuffer_threshold_no_batch :
    addToBuffer (.response StatusOK) 0 entryA (freshWorld 2) = .returned bufferedWorld ∧
    addToBuffer (.response StatusOK) Second entryB bufferedWorld =
      .blocked
        { bufferedWorld with
          lc := { bufferedWorld.lc with buffer := [entryA, entryB], mutex := true } } ∧
    runCalls (freshWorld 2)
        [.add 0 entryA (.response StatusOK), .add Second entryB (.response StatusOK)] =
      .blocked
        { bufferedWorld with
          lc := { bufferedWorld.lc with buffer := [entryA, entryB], mutex := true } } ∧
    (runCalls (freshWorld 2)
        [.add 0 entryA (.response StatusOK),
         .add Second entryB (.response StatusOK)]).world.posted = [] := by
  decide

/-- C1 (the code deadlocks): with threshold 2 and a sink that always answers
200, appending `a` and `b`, then a timer flush and a final `Stop`, submits
nothing at all: both records stay in the buffer behind the held mutex. -/
theorem appended_records_never_submitted :
    allSucceed [.add 0 entryA (.response StatusOK), .add Second entryB (.response StatusOK),
        .timerFlush (.response StatusOK), .stop (.response StatusOK)] = true ∧
    appended [.add 0 entryA (.response StatusOK), .add Second entryB (.response StatusOK),
        .timerFlush (.response StatusOK), .stop (.response StatusOK)] = [entryA, entryB] ∧
    submitted (runCalls (freshWorld 2)
      [.add 0 entryA (.response StatusOK), .add Second entryB (.response StatusOK),
        .timerFlush (.response StatusOK), .stop (.response StatusOK)]).world = [] ∧
    (runCalls (freshWorld 2)
      [.add 0 entryA (.response StatusOK), .add Second entryB (.response StatusOK),
        .timerFlush (.response StatusOK), .stop (.response StatusOK)]).isReturned = false ∧
    (runCalls (freshWorld 2)
      [.add 0 entryA (.response StatusOK), .add Second entryB (.response StatusOK),
        .timerFlush (.response StatusOK), .stop (.response StatusOK)]).world.lc.buffer
      = [entryA, entryB] := by
  decide

/-! ## Theorems: the bound on the buffer -/

theorem flushBuffer_bounded (K : Int) (a : Attempt) (w : World) (h : Bounded K w) :
    Bounded K (flushBuffer a w).world ∧ (flushBuffer a w).isCrashed = false := by
  obtain ⟨⟨fp, url, user, pass, idx, K1, buf, m, wc, c, t⟩, timers, posted⟩ := w
  obtain ⟨hK, hlen, hfree, hposted⟩ := h
  simp only at hK hlen hfree hposted
  subst hK
  cases m with
  | true =>
    simp only [flushBuffer, if_true, Outcome.world, Outcome.isCrashed, Bounded]
    exact ⟨⟨trivial, hlen, hfree, hposted⟩, trivial⟩
  | false =>
    have hlt := hfree rfl
    have hsub : ∀ r ∈ posted ++ [buildRequest
        { FilePath := fp, ZincURL := url, ZincUser := user, ZincPass := pass,
          ZincIndex := idx, BufferSize := K1, buffer := buf, mutex := true,
          watcherClosed := wc, cancelled := c, timer := t }],
        (r.payload.Records.length : Int) ≤ K1 := by
      intro r hr
      rcases List.mem_append.mp hr with hr | hr
      · exact hposted r hr
      · rw [List.mem_singleton.mp hr]
        exact hlen
    have h0 : (0 : Int) < K1 := by omega
    have h0le : ((([] : List LogEntry).length : Nat) : Int) ≤ K1 := by
      simpa using le_of_lt h0
    have h0lt : ((([] : List LogEntry).length : Nat) : Int) < K1 := by
      simpa using h0
    by_cases hb : buf = []
    · subst hb
      simp only [flushBuffer, lockMutex, Unlock, Outcome.world, Outcome.isCrashed, Bounded,
        List.length_nil, if_true, if_false, Bool.false_eq_true]
      exact ⟨⟨trivial, h0le, fun _ => h0lt, hposted⟩, trivial⟩
    · have hb0 : ¬ buf.length = 0 := fun h => hb (List.length_eq_zero.mp h)
      cases a with
      | marshalError =>
        simp only [flushBuffer, lockMutex, Unlock, Outcome.world, Outcome.isCrashed, Bounded,
          hb0, if_true, if_false, Bool.false_eq_true]
        exact ⟨⟨trivial, hlen, fun _ => hlt, hposted⟩, trivial⟩
      | requestError =>
        simp only [flushBuffer, lockMutex, Unlock, Outcome.world, Outcome.isCrashed, Bounded,
          hb0, if_true, if_false, Bool.false_eq_true]
        exact ⟨⟨trivial, hlen, fun _ => hlt, hposted⟩, trivial⟩
      | transportError =>
        simp only [flushBuffer, lockMutex, Unlock, Outcome.world, Outcome.isCrashed, Bounded,
          post, hb0, if_false, if_true, Bool.false_eq_true]
        exact ⟨⟨trivial, hlen, fun _ => hlt, hsub⟩, trivial⟩
      | response status =>
        by_cases hs : status = StatusOK
        · simp only [flushBuffer, lockMutex, Unlock, Outcome.world, Outcome.isCrashed, Bounded,
            post, hb0, if_false, if_true, Bool.false_eq_true, hs,
            ne_eq, not_true_eq_false]
          exact ⟨⟨trivial, h0le, fun _ => h0lt, hsub⟩, trivial⟩
        · simp only [flushBuffer, lockMutex, Unlock, Outcome.world, Outcome.isCrashed, Bounded,
            post, hb0, if_false, if_true, Bool.false_eq_true, hs,
            ne_eq, not_false_eq_true]
          exact ⟨⟨trivial, hlen, fun _ => hlt, hsub⟩, trivial⟩

theorem addToBuffer_bounded (K : Int) (a : Attempt) (now : Nat) (e : LogEntry) (w : World)
    (h : Bounded K w) :
    Bounded K (addToBuffer a now e w).world ∧ (addToBuffer a now e w).isCrashed = false := by
  obtain ⟨⟨fp, url, user, pass, idx, K1, buf, m, wc, c, t⟩, timers, posted⟩ := w
  obtain ⟨hK, hlen, hfree, hposted⟩ := h
  simp only at hK hlen hfree hposted
  subst hK
  cases m with
  | true =>
    simp only [addToBuffer, if_true, Outcome.world, Outcome.isCrashed, Bounded]
    exact ⟨⟨trivial, hlen, hfree, hposted⟩, trivial⟩
  | false =>
    have hlt := hfree rfl
    have hlen1 : (((buf ++ [e]).length : Nat) : Int) = (buf.length : Int) + 1 := by
      simp
    by_cases hfull : K1 ≤ (buf.length : Int) + 1
    · have hd := addToBuffer_full_blocks a now e
        { lc := { FilePath := fp, ZincURL := url, ZincUser := user, ZincPass := pass,
                  ZincIndex := idx, BufferSize := K1, buffer := buf, mutex := false,
                  watcherClosed := wc, cancelled := c, timer := t },
          timers := timers, posted := posted } rfl hfull
      rw [hd]
      simp only [Outcome.world, Outcome.isCrashed, Bounded]
      exact ⟨⟨trivial, by omega, fun h => by simp at h, hposted⟩, trivial⟩
    · have hnot : ¬ K1 ≤ (((buf ++ [e]).length : Nat) : Int) := by
        rw [hlen1]; exact hfull
      simp only [addToBuffer, lockMutex, hnot, if_false, Bool.false_eq_true, resetFlushTimer,
        Unlock, if_true, Outcome.world, Outcome.isCrashed, Bounded]
      exact ⟨⟨trivial, by omega, fun _ => by omega, hposted⟩, trivial⟩

theorem Stop_bounded (K : Int) (a : Attempt) (w : World) (h : Bounded K w) :
    Bounded K (Stop a w).world ∧ (Stop a w).isCrashed = false := by
  have h1 : Bounded K { w with lc := { w.lc with cancelled := true } } := h
  have h2 := flushBuffer_bounded K a _ h1
  simp only [Stop]
  cases hf : flushBuffer a { w with lc := { w.lc with cancelled := true } } with
  | returned w2 =>
    rw [hf] at h2
    exact ⟨h2.1, rfl⟩
  | blocked w2 =>
    rw [hf] at h2
    exact h2
  | crashed w2 =>
    rw [hf] at h2
    exact h2

theorem exec_bounded (K : Int) (c : Call) (o : Outcome)
    (h : Bounded K o.world ∧ o.isCrashed = false) :
    Bounded K (exec o c).world ∧ (exec o c).isCrashed = false := by
  cases o with
  | crashed w => simp [Outcome.isCrashed] at h
  | returned w =>
    cases c with
    | add now e a => exact addToBuffer_bounded K a now e w h.1
    | timerFlush a => exact flushBuffer_bounded K a w h.1
    | stop a => exact Stop_bounded K a w h.1
  | blocked w =>
    cases c with
    | add now e a => exact addToBuffer_bounded K a now e w h.1
    | timerFlush a => exact flushBuffer_bounded K a w h.1
    | stop a => exact Stop_bounded K a w h.1

theorem foldl_exec_bounded (K : Int) (cs : List Call) (o : Outcome)
    (h : Bounded K o.world ∧ o.isCrashed = false) :
    Bounded K (cs.foldl exec o).world ∧ (cs.foldl exec o).isCrashed = false := by
  induction cs generalizing o with
  | nil => exact h
  | cons c cs ih => exact ih (exec o c) (exec_bounded K c o h)

theorem addToBuffer_returned_below (a : Attempt) (now : Nat) (e : LogEntry) (w w1 : World)
    (h : addToBuffer a now e w = .returned w1) :
    (w1.lc.buffer.length : Int) < w1.lc.BufferSize ∧ w1.lc.BufferSize = w.lc.BufferSize ∧
      w1.lc.buffer = w.lc.buffer ++ [e] ∧ w1.lc.mutex = false := by
  obtain ⟨⟨fp, url, user, pass, idx, K1, buf, m, wc, c, t⟩, timers, posted⟩ := w
  cases m with
  | true => simp [addToBuffer] at h
  | false =>
    by_cases hfull : K1 ≤ ((buf ++ [e]).length : Int)
    · simp only [addToBuffer, lockMutex, flushBuffer, hfull, if_true, if_false,
        Bool.false_eq_true] at h
      cases h
    · simp only [addToBuffer, lockMutex, hfull, if_false, Bool.false_eq_true, resetFlushTimer,
        Unlock, if_true, Outcome.returned.injEq] at h
      subst h
      exact ⟨by simpa using hfull, rfl, rfl, rfl⟩

/-- C9: start with threshold `K > 0`, an empty buffer and nothing submitted, and
make any sequence of `addToBuffer`, timer flush and `Stop` calls
with any answers of the sink.  Then the process never aborts, the buffer never
holds more than `K` records, no submitted batch holds more than `K` records,
and every further `addToBuffer` call that returns leaves fewer than `K` records
in the buffer. -/
theorem buffer_never_exceeds_threshold (K : Int) (hK : 0 < K) (w0 : World)
    (hsize : w0.lc.BufferSize = K) (hbuf : w0.lc.buffer = [])
    (hposted : w0.posted = []) (cs : List Call) :
    (runCalls w0 cs).isCrashed = false ∧
    ((runCalls w0 cs).world.lc.buffer.length : Int) ≤ K ∧
    (∀ r ∈ (runCalls w0 cs).world.posted, (r.payload.Records.length : Int) ≤ K) ∧
    ∀ a now e w1, addToBuffer a now e (runCalls w0 cs).world = .returned w1 →
      (w1.lc.buffer.length : Int) < K := by
  have h0 : Bounded K w0 ∧ (Outcome.returned w0).isCrashed = false := by
    refine ⟨⟨hsize, ?_, fun _ => ?_, ?_⟩, rfl⟩
    · rw [hbuf]; simpa using le_of_lt hK
    · rw [hbuf]; simpa using hK
    · rw [hposted]; intro r hr; simp at hr
  have h := foldl_exec_bounded K cs (.returned w0) h0
  refine ⟨h.2, h.1.2.1, h.1.2.2.2, ?_⟩
  intro a now e w1 hret
  have hb := addToBuffer_returned_below a now e _ w1 hret
  have hsz : (runCalls w0 cs).world.lc.BufferSize = K := h.1.1
  rw [hb.2.1, hsz] at hb
  exact hb.1

theorem buffer_never_exceeds_threshold_witness :
    (0 : Int) < 2 ∧ (freshWorld 2).lc.BufferSize = 2 ∧ (freshWorld 2).lc.buffer = [] ∧
    (freshWorld 2).posted = [] ∧
    (runCalls (freshWorld 2)
      [.add 0 entryA .transportError, .timerFlush (.response 500),
       .add Second entryB (.response StatusOK), .stop .marshalError]).isCrashed = false ∧
    ((runCalls (freshWorld 2)
      [.add 0 entryA .transportError, .timerFlush (.response 500),
       .add Second entryB (.response StatusOK), .stop .marshalError]).world.lc.buffer.length
        : Int) ≤ 2 ∧
    (∀ r ∈ (runCalls (freshWorld 2)
      [.add 0 entryA .transportError, .timerFlush (.response 500),
       .add Second entryB (.response StatusOK), .stop .marshalError]).world.posted,
        (r.payload.Records.length : Int) ≤ 2) ∧
    ∀ a now e w1, addToBuffer a now e (runCalls (freshWorld 2)
      [.add 0 entryA .transportError, .timerFlush (.response 500),
       .add Second entryB (.response StatusOK), .stop .marshalError]).world = .returned w1 →
      (w1.lc.buffer.length : Int) < 2 :=
  ⟨by decide, rfl, rfl, rfl,
    buffer_never_exceeds_threshold 2 (by decide) (freshWorld 2) rfl rfl rfl
      [.add 0 entryA .transportError, .timerFlush (.response 500),
       .add Second entryB (.response StatusOK), .stop .marshalError]⟩

/-! ## Theorems: the flush timer -/

/-- C5 (the code ignores the configured timeout): whatever `bufferTimeout` the
collector is created with, an `addToBuffer` at instant `t` that stays below the
threshold stops the earlier timer and arms the one pending timer for
`t + 10 s`; for a timeout of 3 s and `t = 0` that is 10 s and not 3 s. -/
theorem flush_timer_ignores_bufferTimeout (T : Int) (t : Nat) (a : Attempt) (e : LogEntry) :
    NewLogCollector false 0 [] "logs" "app.log" "http://zinc:4080" "admin" "secret" 2 T
      = .collector (freshWorld 2) ∧
    addToBuffer a t e (freshWorld 2) =
      .returned
        { lc := { (freshWorld 2).lc with buffer := [e], timer := some 1 },
          timers := [{ deadline := 10 * Second, stopped := true },
                     { deadline := t + 10 * Second, stopped := false }],
          posted := [] } ∧
    0 + 10 * Second ≠ 0 + 3 * Second := by
  refine ⟨NewLogCollector_fresh 2 T (by decide), ?_, by decide⟩
  simp [addToBuffer, freshWorld, lockMutex, resetFlushTimer, stopTimer, AfterFunc, Unlock]

/-! ## Theorems: lines -/

theorem addToBuffer_appends (a : Attempt) (now : Nat) (e : LogEntry) (w : World)
    (hfree : w.lc.mutex = false) :
    (addToBuffer a now e w).world.lc.buffer = w.lc.buffer ++ [e] := by
  by_cases hfull : w.lc.BufferSize ≤ (w.lc.buffer.length : Int) + 1
  · rw [addToBuffer_full_blocks a now e w hfree hfull]
    rfl
  · obtain ⟨⟨fp, url, user, pass, idx, K1, buf, m, wc, c, t⟩, timers, posted⟩ := w
    simp only at hfree hfull
    subst hfree
    have hnot : ¬ K1 ≤ (((buf ++ [e]).length : Nat) : Int) := by
      simpa using hfull
    simp only [addToBuffer, lockMutex, hnot, if_false, Bool.false_eq_true, resetFlushTimer,
      Unlock, if_true, Outcome.world]

theorem parseLine_of_invalid (filePath : String) (wall : Time) (log : String)
    (h : Valid log = false) :
    parseLine filePath wall log = { Timestamp := wall, Message := log, File := filePath } := by
  simp [parseLine, h]

theorem parseLine_of_valid (filePath : String) (wall : Time) (log : String)
    (h : Valid log = true) :
    parseLine filePath wall log = (Unmarshal log LogEntry.zero).1 := by
  simp [parseLine, h]

/-- C6 (the code loses the line): the lines `42`, `[1]` and `"hello world"`
(with its quotes) are valid JSON, so `processLog` does not take the plain-text
branch; `json.Unmarshal` reports an error that is dropped and leaves the entry
untouched, and the record appended is the zero entry, whose message is empty
and whose file is empty. -/
theorem processLog_valid_json_loses_line :
    Valid "42" = true ∧ Unmarshal "42" LogEntry.zero = (LogEntry.zero, true) ∧
    (processLog (.response StatusOK) wallClock 0 "42" (freshWorld 2)).world.lc.buffer
      = [LogEntry.zero] ∧
    (processLog (.response StatusOK) wallClock 0 "[1]" (freshWorld 2)).world.lc.buffer
      = [LogEntry.zero] ∧
    (processLog (.response StatusOK) wallClock 0 "\"hello world\""
      (freshWorld 2)).world.lc.buffer = [LogEntry.zero] ∧
    LogEntry.zero.Message = "" ∧ LogEntry.zero.File = "" ∧
    (processLog (.response StatusOK) wallClock 0 "hello world" (freshWorld 2)).world.lc.buffer
      = [{ Timestamp := wallClock, Message := "hello world", File := "app.log" }] := by
  decide

/-! ## Theorems: the reader reads what is written -/

theorem digitChar_isDigit (k : Nat) (h : k < 10) : (digitChar k).isDigit = true := by
  interval_cases k <;> rfl

theorem digitChar_toNat (k : Nat) (h : k < 10) : (digitChar k).toNat - 48 = k := by
  interval_cases k <;> rfl

theorem isSpace_of_blank (c : Char)
    (h : c = ' ' ∨ c = Char.ofNat 9 ∨ c = Char.ofNat 10 ∨ c = Char.ofNat 13) :
    isSpace c = true := by
  rcases h with h | h | h | h <;> subst h <;> rfl

theorem skipSpace_blank (ws cs : List Char) (h : IsBlank ws) :
    skipSpace (ws ++ cs) = skipSpace cs := by
  induction ws with
  | nil => rfl
  | cons c ws ih =>
    have hc := isSpace_of_blank c (h c (List.mem_cons_self _ _))
    have hws : IsBlank ws := fun x hx => h x (List.mem_cons_of_mem _ hx)
    simp [skipSpace, hc, ih hws]

theorem skipSpace_cons (c : Char) (cs : List Char) (h : isSpace c = false) :
    skipSpace (c :: cs) = c :: cs := by
  simp [skipSpace, h]

theorem skipSpace_idem (cs : List Char) : skipSpace (skipSpace cs) = skipSpace cs := by
  induction cs with
  | nil => rfl
  | cons c cs ih =>
    by_cases h : isSpace c = true
    · simp [skipSpace, h, ih]
    · simp [skipSpace, h]

theorem hexVal_of_table (h : Char) (a : Nat) (hh : (h, a) ∈ hexTable) : hexVal h = some a := by
  simp only [hexTable, List.mem_cons, Prod.mk.injEq, List.mem_singleton, List.not_mem_nil,
    or_false] at hh
  rcases hh with ⟨rfl, rfl⟩ | ⟨rfl, rfl⟩ | ⟨rfl, rfl⟩ | ⟨rfl, rfl⟩ | ⟨rfl, rfl⟩ | ⟨rfl, rfl⟩ |
    ⟨rfl, rfl⟩ | ⟨rfl, rfl⟩ | ⟨rfl, rfl⟩ | ⟨rfl, rfl⟩ | ⟨rfl, rfl⟩ | ⟨rfl, rfl⟩ | ⟨rfl, rfl⟩ |
    ⟨rfl, rfl⟩ | ⟨rfl, rfl⟩ | ⟨rfl, rfl⟩ | ⟨rfl, rfl⟩ | ⟨rfl, rfl⟩ | ⟨rfl, rfl⟩ | ⟨rfl, rfl⟩ |
    ⟨rfl, rfl⟩ | ⟨rfl, rfl⟩ <;> rfl

theorem getu4_of_quad (h1 h2 h3 h4 : Char) (n : Nat) (rest : List Char)
    (h : HexQuad h1 h2 h3 h4 n) :
    getu4 (cBackslash :: 'u' :: h1 :: h2 :: h3 :: h4 :: rest) = some (n, rest) := by
  obtain ⟨a, b, c, d, ha, hb, hc, hd, rfl⟩ := h
  simp [getu4, hexVal_of_table _ _ ha, hexVal_of_table _ _ hb, hexVal_of_table _ _ hc,
    hexVal_of_table _ _ hd]

theorem parseString_written (raw val : List Char) (h : StringText raw val) :
    ∀ (fuel : Nat) (rest accR accV : List Char), raw.length + 1 ≤ fuel →
      parseString fuel (raw ++ cQuote :: rest) accR accV =
        some (String.mk (accR ++ raw), String.mk (accV ++ val), rest) := by
  induction h with
  | done =>
    intro fuel rest accR accV hf
    obtain ⟨k, rfl⟩ : ∃ k, fuel = k + 1 := ⟨fuel - 1, by omega⟩
    simp [parseString]
  | plain c raw val hq hb hc _ ih =>
    intro fuel rest accR accV hf
    obtain ⟨k, rfl⟩ : ∃ k, fuel = k + 1 := ⟨fuel - 1, by simp at hf; omega⟩
    have hq1 : c ≠ cQuote := hq
    have hb1 : c ≠ cBackslash := hb
    have hc1 : ¬ c.toNat < 32 := by omega
    have := ih k rest (accR ++ [c]) (accV ++ [c]) (by simp at hf; omega)
    simp [parseString, hq1, hb1, hc1, this]
  | escape e d raw val he _ ih =>
    intro fuel rest accR accV hf
    obtain ⟨k, rfl⟩ : ∃ k, fuel = k + 1 := ⟨fuel - 1, by simp at hf; omega⟩
    have := ih k rest (accR ++ [cBackslash, e]) (accV ++ [d]) (by simp at hf; omega)
    simp only [escapeTable, List.mem_cons, Prod.mk.injEq, List.mem_singleton, List.not_mem_nil,
      or_false] at he
    rcases he with ⟨rfl, rfl⟩ | ⟨rfl, rfl⟩ | ⟨rfl, rfl⟩ | ⟨rfl, rfl⟩ | ⟨rfl, rfl⟩ | ⟨rfl, rfl⟩ |
      ⟨rfl, rfl⟩ | ⟨rfl, rfl⟩ <;>
    · have hbq : (Char.ofNat 92 = cQuote) = False := by decide
      rw [show (Char.ofNat 92 :: _ :: raw) ++ cQuote :: rest =
        cBackslash :: _ :: (raw ++ cQuote :: rest) from rfl]
      simp only [parseString]
      simpa [cQuote, cBackslash] using this
  | unicode h1 h2 h3 h4 n raw val hq hn _ ih =>
    intro fuel rest accR accV hf
    obtain ⟨k, rfl⟩ : ∃ k, fuel = k + 1 := ⟨fuel - 1, by simp at hf; omega⟩
    have := ih k rest (accR ++ [cBackslash, 'u', h1, h2, h3, h4]) (accV ++ [Char.ofNat n])
      (by simp at hf; omega)
    have hg := getu4_of_quad h1 h2 h3 h4 n (raw ++ cQuote :: rest) hq
    rw [show (Char.ofNat 92 :: 'u' :: h1 :: h2 :: h3 :: h4 :: raw) ++ cQuote :: rest =
      cBackslash :: 'u' :: h1 :: h2 :: h3 :: h4 :: (raw ++ cQuote :: rest) from rfl]
    have hsur : ¬ (0xD800 ≤ n ∧ n < 0xE000) := by omega
    have hbq : ¬ cBackslash = cQuote := by decide
    simp only [parseString, hbq, if_false, if_true, hg, hsur]
    simpa using this
  | pair h1 h2 h3 h4 g1 g2 g3 g4 n m raw val hq1 hq2 hn1 hn2 hm1 hm2 _ ih =>
    intro fuel rest accR accV hf
    obtain ⟨k, rfl⟩ : ∃ k, fuel = k + 1 := ⟨fuel - 1, by simp at hf; omega⟩
    have := ih k rest
      (accR ++ [cBackslash, 'u', h1, h2, h3, h4, cBackslash, 'u', g1, g2, g3, g4])
      (accV ++ [Char.ofNat ((n - 0xD800) * 1024 + (m - 0xDC00) + 0x10000)])
      (by simp at hf; omega)
    have hg1 := getu4_of_quad h1 h2 h3 h4 n
      (cBackslash :: 'u' :: g1 :: g2 :: g3 :: g4 :: (raw ++ cQuote :: rest)) hq1
    have hg2 := getu4_of_quad g1 g2 g3 g4 m (raw ++ cQuote :: rest) hq2
    rw [show (Char.ofNat 92 :: 'u' :: h1 :: h2 :: h3 :: h4 ::
        Char.ofNat 92 :: 'u' :: g1 :: g2 :: g3 :: g4 :: raw) ++ cQuote :: rest =
      cBackslash :: 'u' :: h1 :: h2 :: h3 :: h4 ::
        cBackslash :: 'u' :: g1 :: g2 :: g3 :: g4 :: (raw ++ cQuote :: rest) from rfl]
    have hsur : (0xD800 ≤ n ∧ n < 0xE000) := by omega
    have hpair : n < 0xDC00 ∧ 0xDC00 ≤ m ∧ m < 0xE000 := ⟨hn2, hm1, hm2⟩
    have hbq : ¬ cBackslash = cQuote := by decide
    simp only [parseString, hbq, if_false, if_true, hg1, hg2, hsur, hpair]
    simpa using this

theorem takeDigits_written (ds rest : List Char) (hds : IsDigits ds)
    (hrest : ∀ c, rest.head? = some c → c.isDigit = false) :
    takeDigits (ds ++ rest) = (ds, rest) := by
  obtain ⟨ks, hks, rfl⟩ := hds
  induction ks with
  | nil =>
    cases rest with
    | nil => rfl
    | cons c cs =>
      have := hrest c rfl
      simp [takeDigits, this]
  | cons k ks ih =>
    have hk := digitChar_isDigit k (hks k (List.mem_cons_self _ _))
    have := ih (fun x hx => hks x (List.mem_cons_of_mem _ hx))
    simp [takeDigits, hk, this]

theorem isDigits_head (ds rest : List Char) (hds : IsDigits ds) (hne : ds ≠ []) :
    ∃ c, (ds ++ rest).head? = some c ∧ c.isDigit = true := by
  obtain ⟨ks, hks, rfl⟩ := hds
  cases ks with
  | nil => simp at hne
  | cons k ks => exact ⟨digitChar k, by simp, digitChar_isDigit k (hks k (List.mem_cons_self _ _))⟩

theorem parseExponent_written (exp rest : List Char)
    (hexp : exp = [] ∨ ∃ e sg ds, (e = 'e' ∨ e = 'E') ∧ (sg = [] ∨ sg = ['+'] ∨ sg = ['-']) ∧
      ds ≠ [] ∧ IsDigits ds ∧ exp = e :: sg ++ ds)
    (hrest : EndsNumber rest) :
    parseExponent (exp ++ rest) = some (exp, rest) := by
  rcases hexp with rfl | ⟨e, sg, ds, he, hsg, hne, hds, rfl⟩
  · cases rest with
    | nil => rfl
    | cons c cs =>
      have := hrest c rfl
      simp [parseExponent, this.2.2.1, this.2.2.2]
  · have htd := takeDigits_written ds rest hds (fun c hc => (hrest c hc).1)
    obtain ⟨c0, hc0, hc0d⟩ := isDigits_head ds rest hds hne
    have hplus : c0 ≠ '+' := by rintro rfl; simp at hc0d
    have hminus : c0 ≠ '-' := by rintro rfl; simp at hc0d
    cases hcs : ds ++ rest with
    | nil => simp [hcs] at hc0
    | cons c1 cs1 =>
      rw [hcs] at hc0 htd
      simp only [List.head?_cons, Option.some.injEq] at hc0
      subst hc0
      cases ds with
      | nil => exact absurd rfl hne
      | cons d0 ds0 =>
        rcases hsg with rfl | rfl | rfl <;> rcases he with rfl | rfl <;>
          simp [parseExponent, hcs, htd, hplus, hminus]

theorem parseFraction_written (frac rest : List Char)
    (hfrac : frac = [] ∨ ∃ ds, ds ≠ [] ∧ IsDigits ds ∧ frac = '.' :: ds)
    (hdot : ∀ c, rest.head? = some c → c ≠ '.')
    (hrest : ∀ c, rest.head? = some c → c.isDigit = false) :
    parseFraction (frac ++ rest) = some (frac, rest) := by
  rcases hfrac with rfl | ⟨ds, hne, hds, rfl⟩
  · cases rest with
    | nil => rfl
    | cons c cs =>
      have := hdot c rfl
      simp [parseFraction, this]
  · have htd := takeDigits_written ds rest hds hrest
    cases ds with
    | nil => exact absurd rfl hne
    | cons d0 ds0 =>
      simp only [List.cons_append] at htd
      simp [parseFraction, htd]

theorem parseInteger_written (int rest : List Char)
    (hint : int = ['0'] ∨ ∃ k ds, 1 ≤ k ∧ k ≤ 9 ∧ IsDigits ds ∧ int = digitChar k :: ds)
    (hrest : ∀ c, rest.head? = some c → c.isDigit = false) :
    parseInteger (int ++ rest) = some (int, rest) := by
  rcases hint with rfl | ⟨k, ds, hk1, hk9, hds, rfl⟩
  · simp [parseInteger]
  · have htd := takeDigits_written ds rest hds hrest
    have h0 : digitChar k ≠ '0' := by interval_cases k <;> decide
    have h1 : '1' ≤ digitChar k ∧ digitChar k ≤ '9' := by interval_cases k <;> decide
    simp [parseInteger, h0, h1, htd]

theorem parseNumber_written (text rest : List Char) (h : NumberText text)
    (hrest : EndsNumber rest) :
    parseNumber (text ++ rest) = some (String.mk text, rest) := by
  obtain ⟨sign, int, frac, exp, rfl, hsign, hint, hfrac, hexp⟩ := h
  have hE := parseExponent_written exp rest hexp hrest
  have hexpHead : ∀ c, (exp ++ rest).head? = some c → c.isDigit = false ∧ c ≠ '.' := by
    intro c hc
    rcases hexp with rfl | ⟨e, sg, ds, he, _, _, _, rfl⟩
    · exact ⟨(hrest c hc).1, (hrest c hc).2.1⟩
    · simp only [List.cons_append, List.head?_cons, Option.some.injEq] at hc
      subst hc
      rcases he with rfl | rfl <;> exact ⟨by decide, by decide⟩
  have hF := parseFraction_written frac (exp ++ rest) hfrac (fun c hc => (hexpHead c hc).2)
    (fun c hc => (hexpHead c hc).1)
  have hfracHead : ∀ c, (frac ++ (exp ++ rest)).head? = some c → c.isDigit = false := by
    intro c hc
    rcases hfrac with rfl | ⟨ds, _, _, rfl⟩
    · exact (hexpHead c hc).1
    · simp only [List.cons_append, List.head?_cons, Option.some.injEq] at hc
      subst hc
      decide
  have hI := parseInteger_written int (frac ++ (exp ++ rest)) hint hfracHead
  have hintHead : ∃ c cs, int ++ (frac ++ (exp ++ rest)) = c :: cs ∧ c ≠ '-' := by
    rcases hint with rfl | ⟨k, ds, hk1, hk9, _, rfl⟩
    · exact ⟨'0', _, rfl, by decide⟩
    · exact ⟨digitChar k, _, rfl, by interval_cases k <;> decide⟩
  obtain ⟨c0, cs0, hcs0, hc0⟩ := hintHead
  rcases hsign with rfl | rfl
  · have hall : [] ++ int ++ frac ++ exp ++ rest = c0 :: cs0 := by
      simpa [List.append_assoc] using hcs0
    rw [hall]
    simp only [parseNumber, hc0, if_false]
    rw [← hcs0, hI]
    simp only [hF, hE]
  · have hall : ['-'] ++ int ++ frac ++ exp ++ rest = '-' :: (int ++ (frac ++ (exp ++ rest))) := by
      simp [List.append_assoc]
    rw [hall]
    simp only [parseNumber, if_true]
    rw [hI]
    simp only [hF, hE]

theorem parseValue_skipSpace (fuel d : Nat) (cs : List Char) :
    parseValue fuel d (skipSpace cs) = parseValue fuel d cs := by
  cases fuel with
  | zero => simp [parseValue]
  | succ k => simp only [parseValue, skipSpace_idem]

theorem parseValue_blank (fuel d : Nat) (ws cs : List Char) (h : IsBlank ws) :
    parseValue fuel d (ws ++ cs) = parseValue fuel d cs := by
  rw [← parseValue_skipSpace fuel d (ws ++ cs), skipSpace_blank ws cs h, parseValue_skipSpace]

theorem parseElements_skipSpace (fuel d : Nat) (cs : List Char) (acc : List JValue) :
    parseElements fuel d (skipSpace cs) acc = parseElements fuel d cs acc := by
  cases fuel with
  | zero => simp [parseElements]
  | succ k => simp only [parseElements, parseValue_skipSpace]

theorem parseMembers_skipSpace (fuel d : Nat) (cs : List Char) (acc : List (String × JValue)) :
    parseMembers fuel d (skipSpace cs) acc = parseMembers fuel d cs acc := by
  cases fuel with
  | zero => simp [parseMembers]
  | succ k => simp only [parseMembers, skipSpace_idem]

theorem endsNumber_delimiter (ws rest : List Char) (c : Char) (hws : IsBlank ws)
    (hc : c = ',' ∨ c = ']' ∨ c = Char.ofNat 125) : EndsNumber (ws ++ c :: rest) := by
  intro x hx
  cases ws with
  | nil =>
    simp only [List.nil_append, List.head?_cons, Option.some.injEq] at hx
    subst hx
    rcases hc with rfl | rfl | rfl <;> decide
  | cons w ws =>
    simp only [List.cons_append, List.head?_cons, Option.some.injEq] at hx
    subst hx
    rcases hws w (List.mem_cons_self _ _) with rfl | rfl | rfl | rfl <;> decide

theorem endsNumber_blank (ws : List Char) (hws : IsBlank ws) : EndsNumber ws := by
  intro x hx
  cases ws with
  | nil => simp at hx
  | cons w ws =>
    simp only [List.head?_cons, Option.some.injEq] at hx
    subst hx
    rcases hws w (List.mem_cons_self _ _) with rfl | rfl | rfl | rfl <;> decide

theorem parseValue_null (k d : Nat) (rest : List Char) :
    parseValue (k + 1) d ('n' :: 'u' :: 'l' :: 'l' :: rest) = some (.null, rest) := by
  simp [parseValue, skipSpace, isSpace, cQuote]

theorem parseValue_number (k d : Nat) (c0 : Char) (cs : List Char)
    (hc : c0 = '-' ∨ ∃ j, j ≤ 9 ∧ c0 = digitChar j) :
    parseValue (k + 1) d (c0 :: cs) =
      match parseNumber (c0 :: cs) with
      | some (t, r) => some (.num t, r)
      | none => none := by
  have hfacts : isSpace c0 = false ∧ c0 ≠ Char.ofNat 123 ∧ c0 ≠ '[' ∧ c0 ≠ cQuote ∧
      c0 ≠ 't' ∧ c0 ≠ 'f' ∧ c0 ≠ 'n' := by
    rcases hc with rfl | ⟨j, hj, rfl⟩
    · decide
    · interval_cases j <;> decide
  obtain ⟨h1, h2, h3, h4, h5, h6, h7⟩ := hfacts
  simp only [parseValue, skipSpace, h1, h2, h3, h4, h5, h6, h7, if_false, Bool.false_eq_true]

theorem numberText_head (text : List Char) (h : NumberText text) :
    ∃ c0 cs, text = c0 :: cs ∧ (c0 = '-' ∨ ∃ j, j ≤ 9 ∧ c0 = digitChar j) := by
  obtain ⟨sign, int, frac, exp, rfl, hsign, hint, _, _⟩ := h
  rcases hsign with rfl | rfl
  · rcases hint with rfl | ⟨k, ds, _, hk9, _, rfl⟩
    · exact ⟨'0', _, rfl, Or.inr ⟨0, by omega, rfl⟩⟩
    · exact ⟨digitChar k, _, rfl, Or.inr ⟨k, hk9, rfl⟩⟩
  · exact ⟨'-', _, rfl, Or.inl rfl⟩

theorem written_value_head_aux (d : Nat) (s : Shape) (text : List Char)
    (h : Written d s text) :
    ∀ v, s = .value v →
      ∃ c cs, text = c :: cs ∧ isSpace c = false ∧ c ≠ ']' ∧ c ≠ Char.ofNat 125 := by
  induction h with
  | null d => intro v _; exact ⟨_, _, rfl, by decide, by decide, by decide⟩
  | true d => intro v _; exact ⟨_, _, rfl, by decide, by decide, by decide⟩
  | false d => intro v _; exact ⟨_, _, rfl, by decide, by decide, by decide⟩
  | num d text hn =>
    intro v _
    obtain ⟨c0, cs, rfl, hc⟩ := numberText_head _ hn
    refine ⟨c0, cs, rfl, ?_⟩
    rcases hc with rfl | ⟨j, hj, rfl⟩
    · decide
    · interval_cases j <;> decide
  | str d raw val _ => intro v _; exact ⟨_, _, rfl, by decide, by decide, by decide⟩
  | emptyArr d ws _ _ => intro v _; exact ⟨_, _, rfl, by decide, by decide, by decide⟩
  | arr d vs t _ _ _ => intro v _; exact ⟨_, _, rfl, by decide, by decide, by decide⟩
  | emptyObj d ws _ _ => intro v _; exact ⟨_, _, rfl, by decide, by decide, by decide⟩
  | obj d ms t _ _ _ => intro v _; exact ⟨_, _, rfl, by decide, by decide, by decide⟩
  | lastElement d v ws1 t ws2 _ _ _ _ => intro v hs; cases hs
  | moreElements d v vs ws1 t ws2 more _ _ _ _ _ _ => intro v hs; cases hs
  | lastMember d key v ws1 rawKey ws2 ws3 t ws4 _ _ _ _ _ _ _ => intro v hs; cases hs
  | moreMembers d key v ms ws1 rawKey ws2 ws3 t ws4 more _ _ _ _ _ _ _ _ _ =>
    intro v hs; cases hs

theorem written_value_head (d : Nat) (v : JValue) (text : List Char)
    (h : Written d (.value v) text) :
    ∃ c cs, text = c :: cs ∧ isSpace c = false ∧ c ≠ ']' ∧ c ≠ Char.ofNat 125 :=
  written_value_head_aux d _ text h v rfl

theorem written_elements_head_aux (d : Nat) (s : Shape) (text : List Char)
    (h : Written d s text) :
    ∀ vs, s = .elements vs → ∀ tail : List Char,
      ∃ c cs, skipSpace (text ++ tail) = c :: cs ∧ c ≠ ']' := by
  induction h with
  | lastElement d v ws1 t ws2 h1 h2 hv _ =>
    intro _ _ tail
    obtain ⟨c, cs, rfl, hsp, hb, _⟩ := written_value_head d v t hv
    refine ⟨c, cs ++ (ws2 ++ tail), ?_, hb⟩
    rw [List.append_assoc, List.append_assoc, skipSpace_blank _ _ h1]
    simp [skipSpace, hsp]
  | moreElements d v vs ws1 t ws2 more h1 h2 hv hm _ _ =>
    intro _ _ tail
    obtain ⟨c, cs, rfl, hsp, hb, _⟩ := written_value_head d v t hv
    refine ⟨c, cs ++ (ws2 ++ (',' :: more ++ tail)), ?_, hb⟩
    rw [List.append_assoc, List.append_assoc, List.append_assoc, skipSpace_blank _ _ h1]
    simp [skipSpace, hsp]
  | _ => intro vs hs; cases hs

theorem written_members_head_aux (d : Nat) (s : Shape) (text : List Char)
    (h : Written d s text) :
    ∀ ms, s = .members ms → ∀ tail : List Char,
      ∃ c cs, skipSpace (text ++ tail) = c :: cs ∧ c ≠ Char.ofNat 125 := by
  induction h with
  | lastMember d key v ws1 rawKey ws2 ws3 t ws4 h1 h2 h3 h4 hk hv _ =>
    intro _ _ tail
    refine ⟨Char.ofNat 34, rawKey ++ Char.ofNat 34 :: ws2 ++ ':' :: ws3 ++ t ++ ws4 ++ tail, ?_,
      by decide⟩
    simp only [List.append_assoc]
    rw [skipSpace_blank _ _ h1]
    simp [skipSpace, isSpace]
  | moreMembers d key v ms ws1 rawKey ws2 ws3 t ws4 more h1 h2 h3 h4 hk hv hm _ _ =>
    intro _ _ tail
    refine ⟨Char.ofNat 34,
      rawKey ++ Char.ofNat 34 :: ws2 ++ ':' :: ws3 ++ t ++ ws4 ++ ',' :: more ++ tail, ?_,
      by decide⟩
    simp only [List.append_assoc]
    rw [skipSpace_blank _ _ h1]
    simp [skipSpace, isSpace]
  | _ => intro vs hs; cases hs

theorem parseValue_string (k d : Nat) (cs : List Char) :
    parseValue (k + 1) d (cQuote :: cs) =
      match parseString (k + 1) cs [] [] with
      | some (raw, val, rest1) => some (.str raw val, rest1)
      | none => none := by
  have h1 : isSpace cQuote = false := by decide
  have h2 : cQuote ≠ Char.ofNat 123 := by decide
  have h3 : cQuote ≠ '[' := by decide
  simp only [parseValue, skipSpace, h1, h2, h3, if_false, if_true, Bool.false_eq_true]

theorem parseValue_array (k d : Nat) (cs : List Char) (hd : d < 10000) :
    parseValue (k + 1) d ('[' :: cs) =
      match skipSpace cs with
      | c :: rest1 =>
        if c = ']' then some (.arr [], rest1)
        else
          match parseElements k (d + 1) (c :: rest1) [] with
          | some (vs, rest2) => some (.arr vs, rest2)
          | none => none
      | [] => none := by
  have h1 : isSpace '[' = false := by decide
  have h2 : '[' ≠ Char.ofNat 123 := by decide
  have h3 : ¬ d + 1 > maxNestingDepth := by simp [maxNestingDepth]; omega
  simp only [parseValue, skipSpace, h1, h2, h3, if_false, if_true, Bool.false_eq_true]

theorem parseValue_object (k d : Nat) (cs : List Char) (hd : d < 10000) :
    parseValue (k + 1) d (Char.ofNat 123 :: cs) =
      match skipSpace cs with
      | c :: rest1 =>
        if c = Char.ofNat 125 then some (.obj [], rest1)
        else
          match parseMembers k (d + 1) (c :: rest1) [] with
          | some (ms, rest2) => some (.obj ms, rest2)
          | none => none
      | [] => none := by
  have h1 : isSpace (Char.ofNat 123) = false := by decide
  have h3 : ¬ d + 1 > maxNestingDepth := by simp [maxNestingDepth]; omega
  simp only [parseValue, skipSpace, h1, h3, if_false, if_true, Bool.false_eq_true]

theorem reads_written (d : Nat) (s : Shape) (text : List Char) (h : Written d s text) :
    Reads d s text := by
  induction h with
  | null d =>
    intro fuel rest hf _
    obtain ⟨k, rfl⟩ : ∃ k, fuel = k + 1 := ⟨fuel - 1, by simp at hf; omega⟩
    exact parseValue_null k d rest
  | true d =>
    intro fuel rest hf _
    obtain ⟨k, rfl⟩ : ∃ k, fuel = k + 1 := ⟨fuel - 1, by simp at hf; omega⟩
    simp [parseValue, skipSpace, isSpace, cQuote]
  | false d =>
    intro fuel rest hf _
    obtain ⟨k, rfl⟩ : ∃ k, fuel = k + 1 := ⟨fuel - 1, by simp at hf; omega⟩
    simp [parseValue, skipSpace, isSpace, cQuote]
  | num d text hn =>
    intro fuel rest hf hrest
    obtain ⟨c0, cs, rfl, hc⟩ := numberText_head _ hn
    obtain ⟨k, rfl⟩ : ∃ k, fuel = k + 1 := ⟨fuel - 1, by simp at hf; omega⟩
    have hp := parseNumber_written _ rest hn hrest
    rw [List.cons_append] at hp ⊢
    rw [parseValue_number k d c0 _ hc, hp]
  | str d raw val hs =>
    intro fuel rest hf _
    obtain ⟨k, rfl⟩ : ∃ k, fuel = k + 1 := ⟨fuel - 1, by simp at hf; omega⟩
    have hp := parseString_written raw val hs (k + 1) rest [] [] (by simp at hf; omega)
    have e : (Char.ofNat 34 :: raw ++ [Char.ofNat 34]) ++ rest =
        cQuote :: (raw ++ cQuote :: rest) := by simp [cQuote]
    rw [e, parseValue_string, hp]
    simp
  | emptyArr d ws hd hws =>
    intro fuel rest hf _
    obtain ⟨k, rfl⟩ : ∃ k, fuel = k + 1 := ⟨fuel - 1, by simp at hf; omega⟩
    have e : ('[' :: ws ++ [']']) ++ rest = '[' :: (ws ++ ']' :: rest) := by simp
    rw [e, parseValue_array k d _ hd, skipSpace_blank _ _ hws]
    simp [skipSpace, isSpace]
  | arr d vs t hd hw ih =>
    intro fuel rest hf _
    obtain ⟨k, rfl⟩ : ∃ k, fuel = k + 1 := ⟨fuel - 1, by simp at hf; omega⟩
    have e : ('[' :: t ++ [']']) ++ rest = '[' :: (t ++ ']' :: rest) := by simp
    obtain ⟨c, cs, hsk, hc⟩ := written_elements_head_aux (d + 1) _ t hw vs rfl (']' :: rest)
    have ih1 : parseElements k (d + 1) (t ++ ']' :: rest) [] = some ([] ++ vs, rest) :=
      ih k rest [] (by simp at hf; omega)
    rw [← parseElements_skipSpace, hsk] at ih1
    rw [e, parseValue_array k d _ hd, hsk]
    simp only [hc, if_false, ih1, List.nil_append]
  | lastElement d v ws1 t ws2 h1 h2 hv ih =>
    intro fuel rest acc hf
    obtain ⟨k, rfl⟩ : ∃ k, fuel = k + 1 := ⟨fuel - 1, by omega⟩
    have e : (ws1 ++ t ++ ws2) ++ ']' :: rest = ws1 ++ (t ++ (ws2 ++ ']' :: rest)) := by simp
    have ih1 : parseValue k d (t ++ (ws2 ++ ']' :: rest)) = some (v, ws2 ++ ']' :: rest) :=
      ih k _ (by simp at hf; omega) (endsNumber_delimiter ws2 rest ']' h2 (Or.inr (Or.inl rfl)))
    rw [e, parseElements, parseValue_blank _ _ _ _ h1, ih1]
    simp only []
    rw [skipSpace_blank _ _ h2]
    simp [skipSpace, isSpace]
  | moreElements d v vs ws1 t ws2 more h1 h2 hv hm ihv ihm =>
    intro fuel rest acc hf
    obtain ⟨k, rfl⟩ : ∃ k, fuel = k + 1 := ⟨fuel - 1, by omega⟩
    have e : (ws1 ++ t ++ ws2 ++ ',' :: more) ++ ']' :: rest =
        ws1 ++ (t ++ (ws2 ++ ',' :: (more ++ ']' :: rest))) := by simp
    have ih1 : parseValue k d (t ++ (ws2 ++ ',' :: (more ++ ']' :: rest))) =
        some (v, ws2 ++ ',' :: (more ++ ']' :: rest)) :=
      ihv k _ (by simp at hf; omega) (endsNumber_delimiter ws2 _ ',' h2 (Or.inl rfl))
    have ih2 : parseElements k d (more ++ ']' :: rest) (acc ++ [v]) =
        some (acc ++ [v] ++ vs, rest) :=
      ihm k rest (acc ++ [v]) (by simp at hf; omega)
    rw [e, parseElements, parseValue_blank _ _ _ _ h1, ih1]
    simp only []
    rw [skipSpace_blank _ _ h2]
    simp [skipSpace, isSpace, ih2]
  | emptyObj d ws hd hws =>
    intro fuel rest hf _
    obtain ⟨k, rfl⟩ : ∃ k, fuel = k + 1 := ⟨fuel - 1, by simp at hf; omega⟩
    have e : (Char.ofNat 123 :: ws ++ [Char.ofNat 125]) ++ rest =
        Char.ofNat 123 :: (ws ++ Char.ofNat 125 :: rest) := by simp
    rw [e, parseValue_object k d _ hd, skipSpace_blank _ _ hws]
    simp [skipSpace, isSpace]
  | obj d ms t hd hw ih =>
    intro fuel rest hf _
    obtain ⟨k, rfl⟩ : ∃ k, fuel = k + 1 := ⟨fuel - 1, by simp at hf; omega⟩
    have e : (Char.ofNat 123 :: t ++ [Char.ofNat 125]) ++ rest =
        Char.ofNat 123 :: (t ++ Char.ofNat 125 :: rest) := by simp
    obtain ⟨c, cs, hsk, hc⟩ :=
      written_members_head_aux (d + 1) _ t hw ms rfl (Char.ofNat 125 :: rest)
    have ih1 : parseMembers k (d + 1) (t ++ Char.ofNat 125 :: rest) [] =
        some ([] ++ ms, rest) :=
      ih k rest [] (by simp at hf; omega)
    rw [← parseMembers_skipSpace, hsk] at ih1
    rw [e, parseValue_object k d _ hd, hsk]
    simp only [hc, if_false, ih1, List.nil_append]
  | lastMember d key v ws1 rawKey ws2 ws3 t ws4 h1 h2 h3 h4 hk hv ih =>
    intro fuel rest acc hf
    obtain ⟨k, rfl⟩ : ∃ k, fuel = k + 1 := ⟨fuel - 1, by omega⟩
    have e : (ws1 ++ Char.ofNat 34 :: rawKey ++ Char.ofNat 34 :: ws2 ++ ':' :: ws3 ++ t ++ ws4) ++
          Char.ofNat 125 :: rest =
        ws1 ++ (cQuote :: (rawKey ++ cQuote ::
          (ws2 ++ ':' :: (ws3 ++ (t ++ (ws4 ++ Char.ofNat 125 :: rest)))))) := by
      simp [cQuote]
    have hkey := parseString_written rawKey key hk (k + 1)
      (ws2 ++ ':' :: (ws3 ++ (t ++ (ws4 ++ Char.ofNat 125 :: rest)))) [] []
      (by simp at hf; omega)
    have ih1 : parseValue k d (t ++ (ws4 ++ Char.ofNat 125 :: rest)) =
        some (v, ws4 ++ Char.ofNat 125 :: rest) :=
      ih k _ (by simp at hf; omega)
        (endsNumber_delimiter ws4 rest _ h4 (Or.inr (Or.inr rfl)))
    have hq : isSpace cQuote = false := by decide
    rw [e, parseMembers, skipSpace_blank _ _ h1, skipSpace_cons _ _ hq]
    simp only [if_true, hkey]
    rw [skipSpace_blank _ _ h2]
    have hcolon : isSpace ':' = false := by decide
    rw [skipSpace_cons _ _ hcolon]
    simp only [if_true]
    rw [parseValue_blank _ _ _ _ h3, ih1]
    simp only []
    rw [skipSpace_blank _ _ h4]
    simp [skipSpace, isSpace]
  | moreMembers d key v ms ws1 rawKey ws2 ws3 t ws4 more h1 h2 h3 h4 hk hv hm ihv ihm =>
    intro fuel rest acc hf
    obtain ⟨k, rfl⟩ : ∃ k, fuel = k + 1 := ⟨fuel - 1, by omega⟩
    have e : (ws1 ++ Char.ofNat 34 :: rawKey ++ Char.ofNat 34 :: ws2 ++ ':' :: ws3 ++ t ++ ws4 ++
          ',' :: more) ++ Char.ofNat 125 :: rest =
        ws1 ++ (cQuote :: (rawKey ++ cQuote ::
          (ws2 ++ ':' :: (ws3 ++ (t ++ (ws4 ++ ',' :: (more ++ Char.ofNat 125 :: rest))))))) := by
      simp [cQuote]
    have hkey := parseString_written rawKey key hk (k + 1)
      (ws2 ++ ':' :: (ws3 ++ (t ++ (ws4 ++ ',' :: (more ++ Char.ofNat 125 :: rest))))) [] []
      (by simp at hf; omega)
    have ih1 : parseValue k d (t ++ (ws4 ++ ',' :: (more ++ Char.ofNat 125 :: rest))) =
        some (v, ws4 ++ ',' :: (more ++ Char.ofNat 125 :: rest)) :=
      ihv k _ (by simp at hf; omega) (endsNumber_delimiter ws4 _ ',' h4 (Or.inl rfl))
    have ih2 : parseMembers k d (more ++ Char.ofNat 125 :: rest) (acc ++ [(String.mk key, v)]) =
        some (acc ++ [(String.mk key, v)] ++ ms, rest) :=
      ihm k rest _ (by simp at hf; omega)
    have hq : isSpace cQuote = false := by decide
    rw [e, parseMembers, skipSpace_blank _ _ h1, skipSpace_cons _ _ hq]
    simp only [if_true, hkey]
    rw [skipSpace_blank _ _ h2]
    have hcolon : isSpace ':' = false := by decide
    rw [skipSpace_cons _ _ hcolon]
    simp only [if_true]
    rw [parseValue_blank _ _ _ _ h3, ih1]
    simp only []
    rw [skipSpace_blank _ _ h4]
    simp [skipSpace, isSpace, ih2]

theorem jsonParse_written (line : String) (ws1 text ws2 : List Char) (v : JValue)
    (hline : line.data = ws1 ++ text ++ ws2) (h1 : IsBlank ws1) (h2 : IsBlank ws2)
    (hw : Written 0 (.value v) text) : jsonParse line = some v := by
  have hr : parseValue (2 * line.length + 2) 0 (text ++ ws2) = some (v, ws2) := by
    apply reads_written 0 _ text hw
    · have : line.length = (ws1 ++ text ++ ws2).length := by rw [← hline]; rfl
      simp at this
      omega
    · exact endsNumber_blank ws2 h2
  have hs : skipSpace ws2 = [] := by
    have := skipSpace_blank ws2 [] h2
    simpa [skipSpace] using this
  unfold jsonParse
  rw [hline, List.append_assoc, parseValue_blank _ _ _ _ h1, hr]
  simp [hs]

theorem parseUint_twoDigits (n lo hi : Nat) (hn : n ≤ 99) (hlo : lo ≤ n) (hhi : n ≤ hi) :
    parseUint (twoDigits n) lo hi = some n := by
  have h1 := digitChar_isDigit (n / 10) (by omega)
  have h2 := digitChar_isDigit (n % 10) (by omega)
  have t1 := digitChar_toNat (n / 10) (by omega)
  have t2 := digitChar_toNat (n % 10) (by omega)
  have hx : (0 * 10 + ((digitChar (n / 10)).toNat - 48)) * 10 +
      ((digitChar (n % 10)).toNat - 48) = n := by
    rw [t1, t2]; omega
  simp only [parseUint, twoDigits, List.all_cons, List.all_nil, h1, h2, Bool.and_self,
    if_true, List.foldl_cons, List.foldl_nil, hx]
  have : ¬ (n < lo ∨ hi < n) := by omega
  simp [this]

theorem parseUint_fourDigits (n : Nat) (hn : n ≤ 9999) :
    parseUint (fourDigits n) 0 9999 = some n := by
  have h1 := digitChar_isDigit (n / 1000) (by omega)
  have h2 := digitChar_isDigit (n / 100 % 10) (by omega)
  have h3 := digitChar_isDigit (n / 10 % 10) (by omega)
  have h4 := digitChar_isDigit (n % 10) (by omega)
  have t1 := digitChar_toNat (n / 1000) (by omega)
  have t2 := digitChar_toNat (n / 100 % 10) (by omega)
  have t3 := digitChar_toNat (n / 10 % 10) (by omega)
  have t4 := digitChar_toNat (n % 10) (by omega)
  have hx : (((0 * 10 + ((digitChar (n / 1000)).toNat - 48)) * 10 +
      ((digitChar (n / 100 % 10)).toNat - 48)) * 10 +
      ((digitChar (n / 10 % 10)).toNat - 48)) * 10 +
      ((digitChar (n % 10)).toNat - 48) = n := by
    rw [t1, t2, t3, t4]; omega
  simp only [parseUint, fourDigits, List.all_cons, List.all_nil, h1, h2, h3, h4, Bool.and_self,
    if_true, List.foldl_cons, List.foldl_nil, hx]
  simp [hn]

theorem daysIn_eq_monthLength (year month : Nat) (h1 : 1 ≤ month) (h12 : month ≤ 12) :
    daysIn month year = monthLength year month := by
  have hleap : isLeap year = true ↔ ((year % 4 = 0 ∧ year % 100 ≠ 0) ∨ year % 400 = 0) := by
    simp only [isLeap, decide_eq_true_eq]
    constructor
    · rintro ⟨h4, h | h⟩
      · exact Or.inl ⟨h4, h⟩
      · exact Or.inr h
    · rintro (⟨h4, h⟩ | h)
      · exact ⟨h4, Or.inl h⟩
      · exact ⟨by omega, Or.inr h⟩
  interval_cases month <;> simp [daysIn, monthLength, hleap]

theorem foldl_digitChars (ks : List Nat) (hks : ∀ k ∈ ks, k < 10) (x : Nat) :
    (ks.map digitChar).foldl (fun x c => x * 10 + (c.toNat - 48)) x =
      ks.foldl (fun x k => 10 * x + k) x := by
  induction ks generalizing x with
  | nil => rfl
  | cons k ks ih =>
    have hk := digitChar_toNat k (hks k (List.mem_cons_self _ _))
    simp only [List.map_cons, List.foldl_cons, hk]
    rw [ih (fun j hj => hks j (List.mem_cons_of_mem _ hj)), Nat.mul_comm x 10]

theorem zoneText_head (off : Int) (zone : List Char) (h : ZoneText off zone) :
    ∃ c cs, zone = c :: cs ∧ c.isDigit = false ∧ c ≠ '.' := by
  cases h with
  | utc => exact ⟨_, _, rfl, by decide, by decide⟩
  | east h m _ _ => exact ⟨_, _, rfl, by decide, by decide⟩
  | west h m _ _ => exact ⟨_, _, rfl, by decide, by decide⟩

theorem parseFractionalSecond_written (ns : Nat) (off : Int) (frac zone : List Char)
    (hf : FractionText ns frac) (hz : ZoneText off zone) :
    parseFractionalSecond (frac ++ zone) = (ns, zone) := by
  obtain ⟨c, cs, rfl, hcd, hcp⟩ := zoneText_head off zone hz
  cases hf with
  | none =>
    cases cs with
    | nil => rfl
    | cons c1 cs1 => simp [parseFractionalSecond, hcp]
  | digits ks hne hks =>
    have htd := takeDigits_written (ks.map digitChar) (c :: cs) ⟨ks, hks, rfl⟩
      (fun x hx => by simp at hx; subst hx; exact hcd)
    cases ks with
    | nil => exact absurd rfl hne
    | cons k ks =>
      have hk := digitChar_isDigit k (hks k (List.mem_cons_self _ _))
      have hfold := foldl_digitChars ((k :: ks).take 9)
        (fun j hj => hks j (List.mem_of_mem_take hj)) 0
      simp only [List.map_cons, List.cons_append] at htd
      simp only [List.map_cons, List.cons_append, parseFractionalSecond, hk, and_self, if_true,
        htd]
      rw [← List.map_cons, ← List.map_take, hfold, List.length_map]
      rfl

theorem parseZone_written (off : Int) (zone : List Char) (h : ZoneText off zone) :
    parseZone zone = some off := by
  cases h with
  | utc => simp [parseZone]
  | east h m hh hm =>
    have p1 := parseUint_twoDigits h 0 23 (by omega) (by omega) hh
    have p2 := parseUint_twoDigits m 0 59 (by omega) (by omega) hm
    simp only [twoDigits] at p1 p2
    simp [parseZone, twoDigits, p1, p2]
  | west h m hh hm =>
    have p1 := parseUint_twoDigits h 0 23 (by omega) (by omega) hh
    have p2 := parseUint_twoDigits m 0 59 (by omega) (by omega) hm
    simp only [twoDigits] at p1 p2
    simp [parseZone, twoDigits, p1, p2]

theorem parseRFC3339_written (s : String) (t : Time) (h : TimeText t s.data) :
    parseRFC3339 s = some t := by
  obtain ⟨y, frac, zone, hy, hy9, hm1, hm12, hd1, hdn, hh, hmi, hs, hfrac, hzone, htext⟩ := h
  have py := parseUint_fourDigits y hy9
  have pm := parseUint_twoDigits t.month 1 12 (by omega) hm1 hm12
  have hday : t.day ≤ 31 := by
    have : monthLength y t.month ≤ 31 := by
      unfold monthLength
      split
      · split <;> omega
      · have hmo : t.month ≤ 12 := hm12
        interval_cases t.month <;> simp
    omega
  have pd := parseUint_twoDigits t.day 1 (daysIn t.month y) (by omega) hd1
    (by rw [daysIn_eq_monthLength y t.month hm1 hm12]; exact hdn)
  have ph := parseUint_twoDigits t.hour 0 23 (by omega) (by omega) hh
  have pmi := parseUint_twoDigits t.minute 0 59 (by omega) (by omega) hmi
  have ps := parseUint_twoDigits t.second 0 59 (by omega) (by omega) hs
  have pf := parseFractionalSecond_written _ _ frac zone hfrac hzone
  have pz := parseZone_written _ zone hzone
  simp only [twoDigits, fourDigits] at py pm pd ph pmi ps
  unfold parseRFC3339
  rw [htext]
  simp only [twoDigits, fourDigits, List.cons_append, List.nil_append, List.append_assoc,
    py, pm, pd, ph, pmi, ps, pf, pz, and_self, if_true]
  obtain ⟨ty, tmo, td, th, tmi, tsec, tn, toff⟩ := t
  simp only at hy
  simp [hy]

theorem char_le_iff (a c : Char) : (a ≤ c) ↔ a.toNat ≤ c.toNat := by
  rw [Char.le_def, UInt32.le_def, BitVec.le_def]
  rfl

theorem foldRune_eq_foldLetter (c : Char) : foldRune c = foldLetter c := by
  unfold foldRune foldLetter Char.toUpper
  by_cases h : 97 ≤ c.toNat ∧ c.toNat ≤ 122
  · have hc : 'a' ≤ c ∧ c ≤ 'z' := ⟨(char_le_iff _ _).2 h.1, (char_le_iff _ _).2 h.2⟩
    have h1 : c ≠ Char.ofNat 0x17F := by
      rintro rfl
      have : (Char.ofNat 0x17F).toNat = 0x17F := rfl
      omega
    have h2 : c ≠ Char.ofNat 0x212A := by
      rintro rfl
      have : (Char.ofNat 0x212A).toNat = 0x212A := rfl
      omega
    have h' : c.toNat ≥ 97 ∧ c.toNat ≤ 122 := h
    rw [if_pos hc, if_neg h1, if_neg h2]
    simp only [h', and_self, if_true]
  · have hc : ¬ ('a' ≤ c ∧ c ≤ 'z') := fun hc =>
      h ⟨(char_le_iff _ _).1 hc.1, (char_le_iff _ _).1 hc.2⟩
    have h' : ¬ (c.toNat ≥ 97 ∧ c.toNat ≤ 122) := h
    rw [if_neg hc]
    simp only [h', if_false]

theorem foldName_eq (s : String) : foldName s = s.data.map foldLetter := by
  unfold foldName
  congr 1
  funext c
  exact foldRune_eq_foldLetter c

theorem findField_cases (key : String) (A : List Char) (T : Field → List Char)
    (dTM : T .Timestamp ≠ T .Message) (dTF : T .Timestamp ≠ T .File)
    (dMF : T .Message ≠ T .File)
    (eT : key = "@timestamp" → A = T .Timestamp) (eM : key = "message" → A = T .Message)
    (eF : key = "file" → A = T .File) (f : Field) :
    (if key = "@timestamp" then some Field.Timestamp
      else if key = "message" then some Field.Message
      else if key = "file" then some Field.File
      else if A = T .Timestamp then some Field.Timestamp
      else if A = T .Message then some Field.Message
      else if A = T .File then some Field.File
      else none) = some f ↔ A = T f := by
  by_cases e1 : key = "@timestamp"
  · have := eT e1
    subst this
    cases f <;> simp [e1, dTM, dTF]
  · by_cases e2 : key = "message"
    · have := eM e2
      subst this
      cases f <;> simp [e1, e2, dTM.symm, dMF]
    · by_cases e3 : key = "file"
      · have := eF e3
        subst this
        cases f <;> simp [e1, e2, e3, dTF.symm, dMF.symm]
      · by_cases a1 : A = T .Timestamp
        · subst a1
          cases f <;> simp [e1, e2, e3, dTM, dTF]
        · by_cases a2 : A = T .Message
          · subst a2
            cases f <;> simp [e1, e2, e3, a1, dMF]
          · by_cases a3 : A = T .File
            · subst a3
              cases f <;> simp [e1, e2, e3, a1, a2]
            · cases f <;> simp [e1, e2, e3, a1, a2, a3]

theorem findField_iff_sameName (key : String) (f : Field) :
    findField key = some f ↔ sameName key f.tag = true := by
  have h := findField_cases key (key.data.map foldLetter)
    (fun g => g.tag.data.map foldLetter) (by decide) (by decide) (by decide)
    (fun h => by rw [h]; rfl) (fun h => by rw [h]; rfl) (fun h => by rw [h]; rfl) f
  have hs : sameName key f.tag = true ↔
      key.data.map foldLetter = (fun g : Field => g.tag.data.map foldLetter) f := by
    simp only [sameName, decide_eq_true_eq]
  rw [hs, ← h]
  unfold findField
  rw [foldName_eq, foldName_eq, foldName_eq, foldName_eq]
  rfl

theorem valuesFor_cons (f : Field) (key : String) (v : JValue) (ms : List (String × JValue)) :
    valuesFor f ((key, v) :: ms) =
      if findField key = some f then v :: valuesFor f ms else valuesFor f ms := by
  unfold valuesFor
  by_cases h : findField key = some f <;> simp [List.filter_cons, h]

theorem decodeMembers_fields (ms : List (String × JValue)) (e : LogEntry) (err : Bool)
    (hT : ∀ v ∈ valuesFor .Timestamp ms, timeAccepts v = true) :
    (decodeMembers ms e err).1 =
      { Timestamp := storedTime (valuesFor .Timestamp ms) e.Timestamp,
        Message := storedString (valuesFor .Message ms) e.Message,
        File := storedString (valuesFor .File ms) e.File } := by
  induction ms generalizing e err with
  | nil => simp [decodeMembers, valuesFor, storedTime, storedString]
  | cons m ms ih =>
    obtain ⟨key, v⟩ := m
    cases hf : findField key with
    | none =>
      have hT1 : ∀ v ∈ valuesFor .Timestamp ms, timeAccepts v = true := by
        intro x hx
        exact hT x (by rw [valuesFor_cons, hf]; simpa using hx)
      simp only [decodeMembers, hf, valuesFor_cons]
      simpa using ih e err hT1
    | some f =>
      cases f with
      | Timestamp =>
        have hv : timeAccepts v = true := hT v (by rw [valuesFor_cons, hf]; simp)
        have hT1 : ∀ v ∈ valuesFor .Timestamp ms, timeAccepts v = true := by
          intro x hx
          exact hT x (by rw [valuesFor_cons, hf]; simp [hx])
        cases v with
        | null =>
          simp only [decodeMembers, hf, valuesFor_cons]
          simpa [storedTime, storedString] using ih e err hT1
        | str raw val =>
          cases hp : timeUnmarshalJSON raw with
          | none => simp [timeAccepts, hp] at hv
          | some t =>
            simp only [decodeMembers, hf, valuesFor_cons, hp]
            simpa [storedTime, storedString, hp] using ih { e with Timestamp := t } err hT1
        | bool b => simp [timeAccepts] at hv
        | num text => simp [timeAccepts] at hv
        | arr items => simp [timeAccepts] at hv
        | obj members => simp [timeAccepts] at hv
      | Message =>
        have hT1 : ∀ v ∈ valuesFor .Timestamp ms, timeAccepts v = true := by
          intro x hx
          exact hT x (by rw [valuesFor_cons, hf]; simpa using hx)
        cases v <;> simp only [decodeMembers, hf, valuesFor_cons]
        all_goals first
          | simpa [storedTime, storedString] using ih e err hT1
          | simpa [storedTime, storedString] using ih e true hT1
          | simpa [storedTime, storedString] using ih { e with Message := ‹String› } err hT1
      | File =>
        have hT1 : ∀ v ∈ valuesFor .Timestamp ms, timeAccepts v = true := by
          intro x hx
          exact hT x (by rw [valuesFor_cons, hf]; simpa using hx)
        cases v <;> simp only [decodeMembers, hf, valuesFor_cons]
        all_goals first
          | simpa [storedTime, storedString] using ih e err hT1
          | simpa [storedTime, storedString] using ih e true hT1
          | simpa [storedTime, storedString] using ih { e with File := ‹String› } err hT1

theorem valuesFor_eq_filter (f : Field) (ms : List (String × JValue)) :
    valuesFor f ms = (ms.filter (fun m => sameName m.1 f.tag)).map (fun m => m.2) := by
  unfold valuesFor
  congr 2
  funext m
  cases h : sameName m.1 f.tag
  · have : ¬ findField m.1 = some f := fun hf => by
      rw [(findField_iff_sameName m.1 f).1 hf] at h
      cases h
    simp [this]
  · simp [(findField_iff_sameName m.1 f).2 h]

theorem parseLine_structured (filePath : String) (wall : Time) (line : String)
    (ws1 text ws2 : List Char) (ms : List (String × JValue))
    (kT kM kF rawT valT rawM msg rawF file : String) (ts : Time)
    (hline : line.data = ws1 ++ text ++ ws2) (hws1 : IsBlank ws1) (hws2 : IsBlank ws2)
    (hobj : Written 0 (.value (.obj ms)) text)
    (hT : ms.filter (fun m => sameName m.1 "@timestamp") = [(kT, .str rawT valT)])
    (hts : TimeText ts rawT.data)
    (hM : ms.filter (fun m => sameName m.1 "message") = [(kM, .str rawM msg)])
    (hF : ms.filter (fun m => sameName m.1 "file") = [(kF, .str rawF file)]) :
    parseLine filePath wall line = { Timestamp := ts, Message := msg, File := file } := by
  have hparse := jsonParse_written line ws1 text ws2 _ hline hws1 hws2 hobj
  have htime : timeUnmarshalJSON rawT = some ts := by
    simp [timeUnmarshalJSON, parseRFC3339_written rawT ts hts]
  have vT : valuesFor .Timestamp ms = [.str rawT valT] := by
    rw [valuesFor_eq_filter]
    simp only [Field.tag, hT, List.map_cons, List.map_nil]
  have vM : valuesFor .Message ms = [.str rawM msg] := by
    rw [valuesFor_eq_filter]
    simp only [Field.tag, hM, List.map_cons, List.map_nil]
  have vF : valuesFor .File ms = [.str rawF file] := by
    rw [valuesFor_eq_filter]
    simp only [Field.tag, hF, List.map_cons, List.map_nil]
  have hacc : ∀ v ∈ valuesFor .Timestamp ms, timeAccepts v = true := by
    intro v hv
    rw [vT] at hv
    rw [List.mem_singleton.mp hv]
    simp [timeAccepts, htime]
  have hdec := decodeMembers_fields ms LogEntry.zero false hacc
  simp only [parseLine, Valid, Unmarshal, hparse, Option.isSome_some, if_true, decodeValue]
  rw [hdec, vT, vM, vF]
  simp [storedTime, storedString, htime]

theorem stringText_plain (cs : List Char)
    (h : ∀ c ∈ cs, c ≠ Char.ofNat 34 ∧ c ≠ Char.ofNat 92 ∧ 32 ≤ c.toNat) :
    StringText cs cs := by
  induction cs with
  | nil => exact StringText.done
  | cons c cs ih =>
    have hc := h c (List.mem_cons_self _ _)
    exact StringText.plain c cs cs hc.1 hc.2.1 hc.2.2
      (ih (fun x hx => h x (List.mem_cons_of_mem _ hx)))

theorem stringText_append (r1 v1 r2 v2 : List Char) (h1 : StringText r1 v1)
    (h2 : StringText r2 v2) : StringText (r1 ++ r2) (v1 ++ v2) := by
  induction h1 with
  | done => exact h2
  | plain c raw val hq hb hc _ ih => exact StringText.plain c _ _ hq hb hc ih
  | escape e d raw val he _ ih => exact StringText.escape e d _ _ he ih
  | unicode h1 h2 h3 h4 n raw val hq hn _ ih => exact StringText.unicode h1 h2 h3 h4 n _ _ hq hn ih
  | pair h1 h2 h3 h4 g1 g2 g3 g4 n m raw val hq1 hq2 a b c d _ ih =>
    exact StringText.pair h1 h2 h3 h4 g1 g2 g3 g4 n m _ _ hq1 hq2 a b c d ih

theorem richLine_written : Written 0 (.value (.obj richMembers)) richText := by
  have hb0 : IsBlank [] := fun c hc => by cases hc
  have hb1 : IsBlank [' '] := fun c hc => by
    rw [List.mem_singleton.mp hc]; exact Or.inl rfl
  have plain : ∀ s : String,
      (∀ c ∈ s.data, c ≠ Char.ofNat 34 ∧ c ≠ Char.ofNat 92 ∧ 32 ≤ c.toNat) →
      Written 1 (.value (.str s s)) (Char.ofNat 34 :: s.data ++ [Char.ofNat 34]) :=
    fun s h => Written.str 1 s.data s.data (stringText_plain s.data h)
  -- the value of `host`
  have hA : Written 2 (.value (.str "a" "a")) "\"a\"".data :=
    Written.str 2 "a".data "a".data (stringText_plain _ (by decide))
  have hN : Written 2 (.value (.num "1.5e3")) "1.5e3".data :=
    Written.num 2 "1.5e3".data
      ⟨[], ['1'], ['.', '5'], ['e', '3'], rfl, Or.inl rfl,
        Or.inr ⟨1, [], by decide, by decide, ⟨[], by simp, rfl⟩, rfl⟩,
        Or.inr ⟨['5'], by simp, ⟨[5], by simp, rfl⟩, rfl⟩,
        Or.inr ⟨'e', [], ['3'], Or.inl rfl, Or.inl rfl, by simp, ⟨[3], by simp, rfl⟩, rfl⟩⟩
  have hNull : Written 2 (.value .null) "null".data := Written.null 2
  have hE : Written 2 (.elements [.str "a" "a", .num "1.5e3", .null]) "\"a\",1.5e3,null".data :=
    Written.moreElements 2 _ _ [] _ [] _ hb0 hb0 hA
      (Written.moreElements 2 _ _ [] _ [] _ hb0 hb0 hN
        (Written.lastElement 2 _ [] _ [] hb0 hb0 hNull))
  have hHost : Written 1 (.value (.arr [.str "a" "a", .num "1.5e3", .null]))
      "[\"a\",1.5e3,null]".data :=
    Written.arr 1 _ _ (by decide) hE
  -- the other values
  have hTime := plain "2024-01-02T03:04:05.25+05:30" (by decide)
  have hFile := plain "/var/log/syslog" (by decide)
  have hMsg : Written 1 (.value (.str "disk \\\"full\\\"" "disk \"full\""))
      "\"disk \\\"full\\\"\"".data :=
    Written.str 1 "disk \\\"full\\\"".data "disk \"full\"".data
      (stringText_append "disk ".data "disk ".data _ _ (stringText_plain _ (by decide))
        (StringText.escape _ _ _ _ (by decide)
          (stringText_append "full".data "full".data _ _ (stringText_plain _ (by decide))
            (StringText.escape _ _ [] [] (by decide) StringText.done))))
  -- the members
  have hM : Written 1 (.members richMembers)
      ("\"host\":[\"a\",1.5e3,null], \"@timestamp\":\"2024-01-02T03:04:05.25+05:30\"," ++
       " \"Message\" : \"disk \\\"full\\\"\", \"file\":\"/var/log/syslog\"").data :=
    Written.moreMembers 1 "host".data _ _ [] "host".data [] [] _ [] _ hb0 hb0 hb0 hb0
      (stringText_plain _ (by decide)) hHost
      (Written.moreMembers 1 "@timestamp".data _ _ [' '] "@timestamp".data [] [] _ [] _
        hb1 hb0 hb0 hb0 (stringText_plain _ (by decide)) hTime
        (Written.moreMembers 1 "Message".data _ _ [' '] "Message".data [' '] [' '] _ [] _
          hb1 hb1 hb1 hb0 (stringText_plain _ (by decide)) hMsg
          (Written.lastMember 1 "file".data _ [' '] "file".data [] [] _ [] hb1 hb0 hb0 hb0
            (stringText_plain _ (by decide)) hFile)))
  exact Written.obj 0 richMembers _ (by decide) hM

theorem richTime_written : TimeText richTime "2024-01-02T03:04:05.25+05:30".data :=
  ⟨2024, ['.', '2', '5'], ['+', '0', '5', ':', '3', '0'], rfl, by decide, by decide, by decide,
    by decide, by decide, by decide, by decide, by decide,
    FractionText.digits [2, 5] (by simp) (by decide), ZoneText.east 5 30 (by decide) (by decide),
    by decide⟩

theorem parseValue_too_deep (n : Nat) : ∀ (fuel d : Nat) (rest : List Char),
    1 ≤ n → maxNestingDepth < d + n →
    parseValue fuel d (List.replicate n '[' ++ rest) = none := by
  induction n with
  | zero => intro fuel d rest h; omega
  | succ m ih =>
    intro fuel d rest _ hd
    cases fuel with
    | zero => simp [parseValue]
    | succ fuel =>
      have hsp : ∀ cs : List Char, skipSpace ('[' :: cs) = '[' :: cs := fun cs => by
        simp [skipSpace, isSpace]
      by_cases hdeep : d + 1 > maxNestingDepth
      · simp [parseValue, List.replicate_succ, hsp, hdeep]
      · cases m with
        | zero => omega
        | succ k =>
          have hrec := ih
          cases fuel with
          | zero =>
            simp [parseValue, List.replicate_succ, hsp, hdeep, parseElements]
          | succ f =>
            have h2 := ih f (d + 1) rest (by omega) (by omega)
            simp only [List.replicate_succ, List.cons_append] at h2
            simp [parseValue, List.replicate_succ, hsp, hdeep, parseElements, h2]

theorem parseValue_deep_member (n : Nat) (tail : List Char) (hn : 10000 ≤ n) (fuel : Nat) :
    parseValue fuel 0
      (Char.ofNat 123 :: cQuote :: 'x' :: cQuote :: ':' :: (List.replicate n '[' ++ tail)) =
      none := by
  have hdeep := fun f => parseValue_too_deep n f 1 tail (by omega)
    (by unfold maxNestingDepth; omega)
  generalize List.replicate n '[' ++ tail = deep at hdeep
  cases fuel with
  | zero => simp [parseValue]
  | succ f1 =>
    cases f1 with
    | zero => simp [parseValue, parseMembers, skipSpace, isSpace, cQuote, maxNestingDepth]
    | succ f2 =>
      cases f2 with
      | zero =>
        simp [parseValue, parseMembers, parseString, skipSpace, isSpace, cQuote, cBackslash,
          maxNestingDepth]
      | succ f3 =>
        rw [parseValue]
        simp [parseMembers, parseString, skipSpace, isSpace, cQuote, cBackslash,
          maxNestingDepth, hdeep]

theorem not_valid_of_deep (s : String) (n : Nat) (tail : List Char) (hn : 10000 ≤ n)
    (hs : s.data =
      Char.ofNat 123 :: cQuote :: 'x' :: cQuote :: ':' :: (List.replicate n '[' ++ tail)) :
    Valid s = false := by
  simp only [Valid, jsonParse, hs, parseValue_deep_member n tail hn, Option.isSome]

theorem deepLine_data : deepLine.data =
    Char.ofNat 123 :: cQuote :: 'x' :: cQuote :: ':' ::
    (List.replicate 10000 '[' ++ (List.replicate 10000 ']' ++
      ",\"@timestamp\":\"2024-01-02T03:04:05Z\",\"message\":\"m\",\"file\":\"f\"\x7d".data)) :=
  rfl

theorem deepLine_fallback (filePath : String) (wall : Time) :
    parseLine filePath wall deepLine =
      { Timestamp := wall, Message := deepLine, File := filePath } := by
  have hv : Valid deepLine = false :=
    not_valid_of_deep deepLine 10000 _ (Nat.le_refl 10000) deepLine_data
  simp only [parseLine, hv]
  rfl

/-- C7 as stated fails: each of these lines is a JSON object that carries an
RFC 3339 `@timestamp`, a `message` and a `file`, and the record appended does
not hold those values.  A leap second and a lower-case `t` make
`Time.UnmarshalJSON` fail, which ends the decoding and leaves the zero record;
a second key `MESSAGE` is stored into the same field and replaces the message;
an escape inside the timestamp makes the time fail; an unpaired surrogate
escape is stored as U+FFFD; a message that is a number is not stored; and an
object nested deeper than 10000 levels is not valid for `json.Valid`, so the
whole line becomes the message, with the wall clock and the configured path. -/
theorem processLog_structured_line_not_exact :
    (processLog (.response StatusOK) wallClock 0
      "\x7b\"@timestamp\":\"2016-12-31T23:59:60Z\",\"message\":\"m\",\"file\":\"f\"\x7d"
      (freshWorld 2)).world.lc.buffer = [LogEntry.zero] ∧
    (processLog (.response StatusOK) wallClock 0
      ("\x7b\"@timestamp\":\"2024-01-02T03:04:05Z\",\"message\":\"exact\"," ++
       "\"MESSAGE\":\"folded\",\"file\":\"f\"\x7d")
      (freshWorld 2)).world.lc.buffer =
        [{ Timestamp := structuredTime, Message := "folded", File := "f" }] ∧
    (processLog (.response StatusOK) wallClock 0
      "\x7b\"@timestamp\":\"2024-01-02t03:04:05Z\",\"message\":\"m\",\"file\":\"f\"\x7d"
      (freshWorld 2)).world.lc.buffer = [LogEntry.zero] ∧
    (processLog (.response StatusOK) wallClock 0
      "\x7b\"message\":\"m\",\"file\":\"f\",\"@timestamp\":\"2024-01-02T03:04:05\\u005a\"\x7d"
      (freshWorld 2)).world.lc.buffer =
        [{ Timestamp := Time.zero, Message := "m", File := "f" }] ∧
    (processLog (.response StatusOK) wallClock 0
      "\x7b\"@timestamp\":\"2024-01-02T03:04:05Z\",\"message\":\"\\ud800\",\"file\":\"f\"\x7d"
      (freshWorld 2)).world.lc.buffer =
        [{ Timestamp := structuredTime, Message := String.mk [Char.ofNat 0xFFFD],
           File := "f" }] ∧
    (processLog (.response StatusOK) wallClock 0
      "\x7b\"@timestamp\":\"2024-01-02T03:04:05Z\",\"message\":5,\"file\":\"f\"\x7d"
      (freshWorld 2)).world.lc.buffer =
        [{ Timestamp := structuredTime, Message := "", File := "f" }] ∧
    (processLog (.response StatusOK) wallClock 0 deepLine (freshWorld 2)).world.lc.buffer =
      [{ Timestamp := wallClock, Message := deepLine, File := (freshWorld 2).lc.FilePath }] := by
  refine ⟨by decide, by decide, by decide, by decide, by decide, by decide, ?_⟩
  simp only [processLog, deepLine_fallback]
  exact addToBuffer_appends _ _ _ _ rfl

/-- C7 as amended: let a line be, between white space, the text of a JSON object
with the members `ms` (any white space, any order, any further members, any
escapes that stand for characters, at most 10000 levels of nesting), in which
exactly one key names `@timestamp`, exactly one names `message` and exactly one
names `file` after case folding, each with a string as value, the timestamp
written without escapes as an RFC 3339 time `ts` with upper-case `T` and `Z` and
a second up to 59.  Then `processLog` hands the record `(ts, msg, file)` to
`addToBuffer`, whatever the wall clock and the configured file path are, and
with the mutex free the buffer afterwards is the buffer before followed by that
one record. -/
theorem processLog_structured_line (a : Attempt) (wall : Time) (now : Nat) (w : World)
    (line : String) (ws1 text ws2 : List Char) (ms : List (String × JValue))
    (kT kM kF rawT valT rawM msg rawF file : String) (ts : Time)
    (hline : line.data = ws1 ++ text ++ ws2) (hws1 : IsBlank ws1) (hws2 : IsBlank ws2)
    (hobj : Written 0 (.value (.obj ms)) text)
    (hT : ms.filter (fun m => sameName m.1 "@timestamp") = [(kT, .str rawT valT)])
    (hts : TimeText ts rawT.data)
    (hM : ms.filter (fun m => sameName m.1 "message") = [(kM, .str rawM msg)])
    (hF : ms.filter (fun m => sameName m.1 "file") = [(kF, .str rawF file)]) :
    parseLine w.lc.FilePath wall line = { Timestamp := ts, Message := msg, File := file } ∧
    processLog a wall now line w =
      addToBuffer a now { Timestamp := ts, Message := msg, File := file } w ∧
    (w.lc.mutex = false →
      (processLog a wall now line w).world.lc.buffer =
        w.lc.buffer ++ [{ Timestamp := ts, Message := msg, File := file }]) := by
  have hparsed := parseLine_structured w.lc.FilePath wall line ws1 text ws2 ms kT kM kF rawT valT
    rawM msg rawF file ts hline hws1 hws2 hobj hT hts hM hF
  refine ⟨hparsed, ?_, ?_⟩
  · simp only [processLog, hparsed]
  · intro hfree
    simp only [processLog, hparsed]
    exact addToBuffer_appends a now _ w hfree

theorem processLog_structured_line_witness :
    richLine.data = [' '] ++ richText ++ [' '] ∧ IsBlank [' '] ∧
    Written 0 (.value (.obj richMembers)) richText ∧
    richMembers.filter (fun m => sameName m.1 "@timestamp") =
      [("@timestamp", .str "2024-01-02T03:04:05.25+05:30" "2024-01-02T03:04:05.25+05:30")] ∧
    TimeText richTime "2024-01-02T03:04:05.25+05:30".data ∧
    richMembers.filter (fun m => sameName m.1 "message") =
      [("Message", .str "disk \\\"full\\\"" "disk \"full\"")] ∧
    richMembers.filter (fun m => sameName m.1 "file") =
      [("file", .str "/var/log/syslog" "/var/log/syslog")] ∧
    parseLine (freshWorld 2).lc.FilePath wallClock richLine =
      { Timestamp := richTime, Message := "disk \"full\"", File := "/var/log/syslog" } ∧
    processLog (.response StatusOK) wallClock 0 richLine (freshWorld 2) =
      addToBuffer (.response StatusOK) 0
        { Timestamp := richTime, Message := "disk \"full\"", File := "/var/log/syslog" }
        (freshWorld 2) ∧
    ((freshWorld 2).lc.mutex = false →
      (processLog (.response StatusOK) wallClock 0 richLine (freshWorld 2)).world.lc.buffer =
        (freshWorld 2).lc.buffer ++
          [{ Timestamp := richTime, Message := "disk \"full\"",
             File := "/var/log/syslog" }]) :=
  ⟨by decide, fun c hc => by rw [List.mem_singleton.mp hc]; exact Or.inl rfl,
    richLine_written, by rfl, richTime_written, by rfl, by rfl,
    processLog_structured_line (.response StatusOK) wallClock 0 (freshWorld 2) richLine
      [' '] richText [' '] richMembers "@timestamp" "Message" "file"
      "2024-01-02T03:04:05.25+05:30" "2024-01-02T03:04:05.25+05:30"
      "disk \\\"full\\\"" "disk \"full\"" "/var/log/syslog" "/var/log/syslog" richTime
      (by decide) (fun c hc => by rw [List.mem_singleton.mp hc]; exact Or.inl rfl)
      (fun c hc => by rw [List.mem_singleton.mp hc]; exact Or.inl rfl)
      richLine_written (by rfl) richTime_written (by rfl) (by rfl)⟩

/-! ## Theorems: goroutines and the mutex -/

theorem consistent_start (w : World) (hfree : w.lc.mutex = false) :
    (System.start w).Consistent := by
  refine ⟨?_, rfl, fun g => ⟨?_, rfl⟩⟩
  · simpa [System.start] using hfree
  · intro h
    simp [System.start, PC.holdsMutex] at h

theorem consistent_goto (s : System) (g : Nat) (p : PC) (w : World) (hs : s.Consistent)
    (hmutex : w.lc.mutex = s.w.lc.mutex) (hp : p.holdsMutex = true → s.holder = some g)
    (hn : p.pastNestedLock = false) : (s.goto g p w).Consistent := by
  obtain ⟨h1, h2, h3⟩ := hs
  refine ⟨?_, h2, fun g1 => ?_⟩
  · simpa [System.goto, hmutex] using h1
  · by_cases hg : g1 = g
    · subst hg
      simpa [System.goto] using And.intro hp hn
    · simpa [System.goto, Function.update_noteq hg] using h3 g1

theorem consistent_lock (s s1 : System) (g : Nat) (p : PC) (hs : s.Consistent)
    (hstep : s.lock g p = some s1) (hn : p.pastNestedLock = false) : s1.Consistent := by
  obtain ⟨h1, h2, h3⟩ := hs
  unfold System.lock at hstep
  cases hm : s.w.lc.mutex with
  | true => simp [hm] at hstep
  | false =>
    simp only [hm, Bool.false_eq_true, if_false, Option.some.injEq] at hstep
    subst hstep
    have hnone : s.holder = none := by
      rw [hm] at h1
      cases hh : s.holder with
      | none => rfl
      | some x => simp [hh] at h1
    refine ⟨by simp [lockMutex], h2, fun g1 => ?_⟩
    by_cases hg : g1 = g
    · subst hg
      simpa using hn
    · have h := h3 g1
      simp only [Function.update_noteq hg]
      refine ⟨fun hh => ?_, h.2⟩
      have := h.1 hh
      rw [hnone] at this
      cases this

theorem consistent_unlock (s : System) (g : Nat) (p : PC) (hs : s.Consistent)
    (hheld : (s.pc g).holdsMutex = true) (hp : p.holdsMutex = false)
    (hn : p.pastNestedLock = false) : (s.unlock g p).Consistent := by
  obtain ⟨h1, h2, h3⟩ := hs
  have hg := (h3 g).1 hheld
  have hm : s.w.lc.mutex = true := by rw [h1, hg]; rfl
  unfold System.unlock Unlock
  simp only [hm, if_true]
  refine ⟨rfl, h2, fun g1 => ?_⟩
  by_cases hg1 : g1 = g
  · subst hg1
    simp [hp, hn]
  · have h := h3 g1
    simp only [Function.update_noteq hg1]
    refine ⟨fun hh => ?_, h.2⟩
    have := h.1 hh
    rw [hg] at this
    exact absurd (Option.some.inj this).symm hg1

theorem step_consistent (g : Nat) (act : Action) (s s1 : System) (hs : s.Consistent)
    (hstep : step g act s = some s1) : s1.Consistent := by
  have hpc := hs.2.2 g
  unfold step at hstep
  simp only [hs.2.1, Bool.false_eq_true, if_false] at hstep
  split at hstep
  · cases hstep
    exact consistent_goto s g _ _ hs rfl (by simp [PC.holdsMutex]) rfl
  · cases hstep
    exact consistent_goto s g _ _ hs rfl (by simp [PC.holdsMutex]) rfl
  · cases hstep
    exact consistent_goto s g _ _ hs rfl (by simp [PC.holdsMutex]) rfl
  · exact consistent_lock s s1 g _ hs hstep rfl
  · rename_i hpcg
    rw [hpcg] at hpc
    split at hstep <;> cases hstep
    · exact consistent_goto s g _ _ hs rfl (fun _ => hpc.1 rfl) rfl
    · exact consistent_goto s g _ _ hs rfl (fun _ => hpc.1 rfl) rfl
  · rename_i hpcg
    rw [hpcg] at hpc
    cases hstep
    exact consistent_goto s g _ _ hs (by simp [resetFlushTimer]) (fun _ => hpc.1 rfl) rfl
  · rename_i hpcg
    cases hstep
    exact consistent_unlock s g _ hs (by rw [hpcg]; rfl) rfl rfl
  · cases hstep
    exact consistent_goto s g _ _ hs rfl (by simp [PC.holdsMutex]) rfl
  · cases hstep
    exact consistent_goto s g _ _ hs rfl (by simp [PC.holdsMutex]) rfl
  · rename_i c _ hpcg
    rw [hpcg] at hpc
    cases c with
    | add =>
      have hh := hpc.1 rfl
      have hm : s.w.lc.mutex = true := by rw [hs.1, hh]; rfl
      simp [System.lock, hm] at hstep
    | timer => exact consistent_lock s s1 g _ hs hstep rfl
    | stop => exact consistent_lock s s1 g _ hs hstep rfl
  · rename_i c _ hpcg
    rw [hpcg] at hpc
    have hc : c ≠ .add := by
      intro h; subst h; simp [PC.pastNestedLock] at hpc
    split at hstep <;> cases hstep
    · exact consistent_goto s g _ _ hs rfl (fun _ => hpc.1 rfl) (by cases c <;> simp_all [PC.pastNestedLock])
    · exact consistent_goto s g _ _ hs rfl (fun _ => hpc.1 rfl) (by cases c <;> simp_all [PC.pastNestedLock])
  · rename_i c a hpcg
    rw [hpcg] at hpc
    have hc : c ≠ .add := by
      intro h; subst h; simp [PC.pastNestedLock] at hpc
    split at hstep <;> cases hstep
    · exact consistent_goto s g _ _ hs rfl (fun _ => hpc.1 rfl) (by cases c <;> simp_all [PC.pastNestedLock])
    · exact consistent_goto s g _ _ hs rfl (fun _ => hpc.1 rfl) (by cases c <;> simp_all [PC.pastNestedLock])
    · exact consistent_goto s g _ _ hs (by simp [post]) (fun _ => hpc.1 rfl) (by cases c <;> simp_all [PC.pastNestedLock])
  · rename_i c a hpcg
    rw [hpcg] at hpc
    have hc : c ≠ .add := by
      intro h; subst h; simp [PC.pastNestedLock] at hpc
    split at hstep
    · split at hstep <;> cases hstep
      · exact consistent_goto s g _ _ hs rfl (fun _ => hpc.1 rfl) (by cases c <;> simp_all [PC.pastNestedLock])
      · exact consistent_goto s g _ _ hs rfl (fun _ => hpc.1 rfl) (by cases c <;> simp_all [PC.pastNestedLock])
    · cases hstep
      exact consistent_goto s g _ _ hs rfl (fun _ => hpc.1 rfl) (by cases c <;> simp_all [PC.pastNestedLock])
  · rename_i c _ hpcg
    rw [hpcg] at hpc
    have hc : c ≠ .add := by
      intro h; subst h; simp [PC.pastNestedLock] at hpc
    cases hstep
    exact consistent_goto s g _ _ hs rfl (fun _ => hpc.1 rfl) (by cases c <;> simp_all [PC.pastNestedLock])
  · rename_i c _ hpcg
    have hpc1 := hpc
    rw [hpcg] at hpc1
    have hc : c ≠ .add := by
      intro h; subst h; simp [PC.pastNestedLock] at hpc1
    cases hstep
    exact consistent_unlock s g _ hs (by rw [hpcg]; rfl)
      (by cases c <;> simp_all [Caller.after, PC.holdsMutex])
      (by cases c <;> simp_all [Caller.after, PC.pastNestedLock])
  · cases hstep

theorem runSchedule_consistent (sched : List (Nat × Action)) (s : System) (hs : s.Consistent) :
    (runSchedule s sched).Consistent := by
  induction sched generalizing s with
  | nil => exact hs
  | cons x xs ih =>
    have hx : ((step x.1 x.2 s).getD s).Consistent := by
      cases h : step x.1 x.2 s with
      | none => exact hs
      | some s1 => exact step_consistent x.1 x.2 s s1 hs h
    exact ih _ hx

theorem unlock_posted (s : System) (g : Nat) (p : PC) :
    (s.unlock g p).w.posted = s.w.posted := by
  cases h : s.w.lc.mutex <;> simp [System.unlock, Unlock, h]

theorem lock_posted (s s1 : System) (g : Nat) (p : PC) (h : s.lock g p = some s1) :
    s1.w.posted = s.w.posted := by
  unfold System.lock at h
  split at h
  · cases h
  · cases h
    rfl

theorem step_posted (g : Nat) (act : Action) (s s1 : System)
    (hstep : step g act s = some s1) (hposted : s1.w.posted ≠ s.w.posted) :
    ∃ c, s.pc g = .flushBuild c := by
  by_contra hne
  apply hposted
  unfold step at hstep
  split at hstep
  · cases hstep
  · split at hstep
    all_goals first
      | exact lock_posted s s1 g _ hstep
      | (cases hstep; exact unlock_posted s g _)
      | (cases hstep <;> rfl)
      | (split at hstep <;> cases hstep <;> rfl)
      | (split at hstep <;> first
          | (cases hstep <;> rfl)
          | (split at hstep <;> cases hstep <;> rfl))
      | (dsimp only at hstep; split at hstep <;> cases hstep <;> rfl)
      | exact absurd ⟨_, by assumption⟩ hne

theorem overlapSchedule_reaches_submission :
    (runSchedule (System.start bufferedWorld) overlapSchedule).pc 0 = .flushDo .timer ∧
    (runSchedule (System.start bufferedWorld) overlapSchedule).pc 1 = .flushLock .stop ∧
    (runSchedule (System.start bufferedWorld) overlapSchedule).holder = some 0 ∧
    (runSchedule (System.start bufferedWorld) overlapSchedule).w.posted = [requestA] := by
  decide

/-- C10: start with the mutex free and all goroutines idle, and let any number of
goroutines call `addToBuffer`, the timer callback and `Stop` with their
statements interleaved in any way.  Then a goroutine that is about to submit or
is inside `client.Do` is the holder of the locked mutex, at most one goroutine
is inside `client.Do`, and the step that hands a request to `client.Do` is
taken only while no goroutine is inside `client.Do`. -/
theorem submission_only_by_mutex_holder (w0 : World) (hfree : w0.lc.mutex = false)
    (sched : List (Nat × Action)) :
    (∀ g c, (runSchedule (System.start w0) sched).pc g = .flushBuild c ∨
        (runSchedule (System.start w0) sched).pc g = .flushDo c →
      (runSchedule (System.start w0) sched).holder = some g ∧
      (runSchedule (System.start w0) sched).w.lc.mutex = true) ∧
    (∀ g1 g2 c1 c2, (runSchedule (System.start w0) sched).pc g1 = .flushDo c1 →
      (runSchedule (System.start w0) sched).pc g2 = .flushDo c2 → g1 = g2) ∧
    (∀ g act s1, step g act (runSchedule (System.start w0) sched) = some s1 →
      s1.w.posted ≠ (runSchedule (System.start w0) sched).w.posted →
      ∀ g1 c, (runSchedule (System.start w0) sched).pc g1 ≠ .flushDo c) := by
  have hc := runSchedule_consistent sched (System.start w0) (consistent_start w0 hfree)
  generalize runSchedule (System.start w0) sched = s at hc
  obtain ⟨h1, h2, h3⟩ := hc
  have hheld : ∀ g, (s.pc g).holdsMutex = true → s.holder = some g := fun g => (h3 g).1
  refine ⟨fun g c h => ?_, fun g1 g2 c1 c2 hg1 hg2 => ?_, fun g act s1 hstep hposted g1 c hg1 => ?_⟩
  · have hh : s.holder = some g := by
      rcases h with h | h <;> exact hheld g (by rw [h]; rfl)
    exact ⟨hh, by rw [h1, hh]; rfl⟩
  · have a1 := hheld g1 (by rw [hg1]; rfl)
    have a2 := hheld g2 (by rw [hg2]; rfl)
    rw [a1] at a2
    exact Option.some.inj a2
  · obtain ⟨c0, hc0⟩ := step_posted g act s s1 hstep hposted
    have a1 := hheld g (by rw [hc0]; rfl)
    have a2 := hheld g1 (by rw [hg1]; rfl)
    rw [a1] at a2
    have hgg : g = g1 := Option.some.inj a2
    subst hgg
    rw [hc0] at hg1
    cases hg1

theorem submission_only_by_mutex_holder_witness :
    bufferedWorld.lc.mutex = false ∧
    (∀ g c, (runSchedule (System.start bufferedWorld) overlapSchedule).pc g = .flushBuild c ∨
        (runSchedule (System.start bufferedWorld) overlapSchedule).pc g = .flushDo c →
      (runSchedule (System.start bufferedWorld) overlapSchedule).holder = some g ∧
      (runSchedule (System.start bufferedWorld) overlapSchedule).w.lc.mutex = true) ∧
    (∀ g1 g2 c1 c2,
      (runSchedule (System.start bufferedWorld) overlapSchedule).pc g1 = .flushDo c1 →
      (runSchedule (System.start bufferedWorld) overlapSchedule).pc g2 = .flushDo c2 →
      g1 = g2) ∧
    (∀ g act s1,
      step g act (runSchedule (System.start bufferedWorld) overlapSchedule) = some s1 →
      s1.w.posted ≠ (runSchedule (System.start bufferedWorld) overlapSchedule).w.posted →
      ∀ g1 c, (runSchedule (System.start bufferedWorld) overlapSchedule).pc g1 ≠ .flushDo c) :=
  ⟨rfl, submission_only_by_mutex_holder bufferedWorld rfl overlapSchedule⟩

/-! ## Theorems: the two views agree

A goroutine that runs a call alone, statement by statement, ends in the world
that the call as a whole ends in. -/

theorem flushBuffer_stepwise (a : Attempt) (w : World) (hfree : w.lc.mutex = false) :
    (runSchedule (System.start w)
      [(0, .callTimer), (0, .next a), (0, .next a), (0, .next a), (0, .next a),
       (0, .next a), (0, .next a)]).w = (flushBuffer a w).world := by
  obtain ⟨⟨fp, url, user, pass, idx, K1, buf, m, wc, c, t⟩, timers, posted⟩ := w
  simp only at hfree
  subst hfree
  by_cases hb : buf = []
  · subst hb
    simp [runSchedule, step, System.start, System.goto, System.lock, System.unlock, Unlock,
      lockMutex, flushBuffer, Outcome.world, Caller.after]
  · cases a with
    | response status =>
      by_cases hs : status = StatusOK <;>
        simp [runSchedule, step, System.start, System.goto, System.lock, System.unlock, Unlock,
          lockMutex, flushBuffer, Outcome.world, hb, hs, Caller.after, post]
    | _ =>
      simp [runSchedule, step, System.start, System.goto, System.lock, System.unlock, Unlock,
        lockMutex, flushBuffer, Outcome.world, hb, Caller.after, post]

theorem addToBuffer_stepwise (a : Attempt) (now : Nat) (e : LogEntry) (w : World)
    (hfree : w.lc.mutex = false) :
    (runSchedule (System.start w)
      [(0, .callAdd now e), (0, .next a), (0, .next a), (0, .next a), (0, .next a),
       (0, .next a), (0, .next a)]).w = (addToBuffer a now e w).world := by
  obtain ⟨⟨fp, url, user, pass, idx, K1, buf, m, wc, c, t⟩, timers, posted⟩ := w
  simp only at hfree
  subst hfree
  by_cases hfull : K1 ≤ (buf.length : Int) + 1
  · simp [runSchedule, step, System.start, System.goto, System.lock, System.unlock, Unlock,
      lockMutex, addToBuffer, flushBuffer, Outcome.world, hfull]
  · simp [runSchedule, step, System.start, System.goto, System.lock, System.unlock, Unlock,
      lockMutex, addToBuffer, flushBuffer, Outcome.world, hfull, resetFlushTimer, AfterFunc]


end Logcollector
